import Mathlib

/-!
# Verification of the paper-processor pipeline core

Shallow embedding of the document chunker, the faithful-translation stage,
the usage/cost ledger, the provider HTTP clients, the image-triage sub-stage
and the pricing table of the obsidian-paper-processor plugin, with proofs of
the spec's testable properties.

Strings are modelled as sequences of Unicode code points (`List Char`);
JavaScript indexes UTF-16 code units, which differs only on astral-plane
characters, none of which occur in the fixed markers and patterns involved.
Recursive scans carry an explicit fuel argument (always instantiated large
enough, as the lemmas show); this is an embedding artifact, not a semantic
one.
-/

namespace PaperProcessor

/-- JavaScript `\s` (and `String.prototype.trim`) character class:
whitespace and line terminators per ECMA-262. -/
def jsWhitespace (c : Char) : Bool :=
  let n := c.toNat
  n = 9 || n = 10 || n = 11 || n = 12 || n = 13 || n = 32 ||
  n = 0xa0 || n = 0x1680 || (0x2000 ≤ n && n ≤ 0x200a) ||
  n = 0x2028 || n = 0x2029 || n = 0x202f || n = 0x205f ||
  n = 0x3000 || n = 0xfeff

/-- JavaScript `\w` / word character (for `\b` boundaries, ASCII since the
regexes do not use the `u` flag): `[A-Za-z0-9_]`. -/
def jsWordChar (c : Char) : Bool :=
  ('A' ≤ c && c ≤ 'Z') || ('a' ≤ c && c ≤ 'z') || ('0' ≤ c && c ≤ '9') || c = '_'

/-- Length of the maximal prefix of `l` whose characters satisfy `p`
(the deterministic residue of a greedy `[class]*` / `[class]+` scan). -/
def runLen (p : Char → Bool) : List Char → Nat
  | [] => 0
  | c :: cs => if p c then runLen p cs + 1 else 0

/-- `text.slice(a, b)` on code points (JS `String.prototype.slice` with
`0 ≤ a ≤ b`). -/
def sliceL (l : List Char) (a b : Nat) : List Char :=
  (l.drop a).take (b - a)

/-- JS `String.prototype.trim` on a code-point list. -/
def trimChars (l : List Char) : List Char :=
  ((l.dropWhile jsWhitespace).reverse.dropWhile jsWhitespace).reverse

/-- JS `s.trim()` as used in truthiness tests (`if (!chunk.trim())`,
`filter((p) => p.trim())`): the trimmed string, whose emptiness is the
falsiness of the JS value. -/
def jsTrim (s : String) : String :=
  ⟨trimChars s.data⟩

theorem runLen_le (p : Char → Bool) (l : List Char) : runLen p l ≤ l.length := by
  induction l with
  | nil => simp [runLen]
  | cons c cs ih =>
      simp only [runLen, List.length_cons]
      split <;> omega

end PaperProcessor

namespace PaperProcessor.Translator

/-!
## The image-reference pattern of `splitContentByImageMarkdown`

The TypeScript pattern (flags `gi`) is

`!\[[^\]]*\]\(\s*(?:<[^>]+>|[^)\s]+(?:\s+(?:\"[^\"]*\"|'[^']*'))?)\s*\)`
`|!\[\[[^\]]+\]\]|<img\b[^>]*\bsrc=(?:"[^"]*"|'[^']*')[^>]*>`

Each function below matches one syntactic piece at the head of the given
suffix and returns the number of characters consumed, `none` on failure,
following the backtracking regex semantics of ECMAScript (greedy
quantifiers over character classes here are deterministic because each
class is disjoint from the character that must follow it; the ordered
choices are tried in written order; the only genuine backtracking is
`[^>]*` before `\bsrc=` in the `<img>` alternative, realised by trying the
longest split first).
-/

/-- The continuation `\s*\)` closing the markdown-image alternative:
returns the characters consumed. -/
def closeParen (l : List Char) : Option Nat :=
  let w := runLen jsWhitespace l
  match l.drop w with
  | ')' :: _ => some (w + 1)
  | _ => none

/-- First alternative of the parenthesised group, `<[^>]+>`, followed by
the closing `\s*\)`. -/
def matchMdGroupA (l : List Char) : Option Nat :=
  match l with
  | '<' :: t =>
    let r := runLen (fun c => c != '>') t
    if r = 0 then none
    else
      match (t.drop r), closeParen (t.drop (r + 1)) with
      | '>' :: _, some w => some (1 + r + 1 + w)
      | _, _ => none
  | _ => none

/-- The optional title `(?:\s+(?:\"[^\"]*\"|'[^']*'))?` followed by the
closing `\s*\)` (a matched title whose continuation fails also fails when
the title is skipped, since the skipped branch then meets a quote where
`\)` is required, so the deterministic reading is faithful). -/
def matchMdTitle (l : List Char) : Option Nat :=
  let w := runLen jsWhitespace l
  if w = 0 then closeParen l
  else
    match l.drop w with
    | '"' :: u =>
      let r := runLen (fun c => c != '"') u
      match u.drop r, closeParen (u.drop (r + 1)) with
      | '"' :: _, some w2 => some (w + 1 + r + 1 + w2)
      | _, _ => none
    | '\'' :: u =>
      let r := runLen (fun c => c != '\'') u
      match u.drop r, closeParen (u.drop (r + 1)) with
      | '\'' :: _, some w2 => some (w + 1 + r + 1 + w2)
      | _, _ => none
    | _ => closeParen l

/-- `!\[[^\]]*\]\(\s*(?:<[^>]+>|[^)\s]+(?:\s+(?:\"[^\"]*\"|'[^']*'))?)\s*\)` -/
def matchMdImage (l : List Char) : Option Nat :=
  match l with
  | '!' :: '[' :: t =>
    let r1 := runLen (fun c => c != ']') t
    match t.drop r1 with
    | ']' :: '(' :: _ =>
      let u := t.drop (r1 + 2)
      let w1 := runLen jsWhitespace u
      let b := u.drop w1
      (match matchMdGroupA b with
       | some g => some (2 + r1 + 2 + w1 + g)
       | none =>
         let r3 := runLen (fun c => c != ')' && !(jsWhitespace c)) b
         if r3 = 0 then none
         else
           match matchMdTitle (b.drop r3) with
           | some m => some (2 + r1 + 2 + w1 + r3 + m)
           | none => none)
    | _ => none
  | _ => none

/-- `!\[\[[^\]]+\]\]` -/
def matchWikiImage (l : List Char) : Option Nat :=
  match l with
  | '!' :: '[' :: '[' :: t =>
    let r := runLen (fun c => c != ']') t
    if r = 0 then none
    else
      match t.drop r with
      | ']' :: ']' :: _ => some (3 + r + 2)
      | _ => none
  | _ => none

/-- After `<img` with the split of `[^>]*` fixed at `d ≥ 1` consumed
characters, check `\b` `src=` (case-insensitively) and the rest
`(?:"[^"]*"|'[^']*')[^>]*>`; `rest` is the suffix following `<img`. -/
def matchImgFrom (rest : List Char) (d : Nat) : Option Nat :=
  match rest.drop (d - 1) with
  | p :: s1 :: r1 :: c1 :: e1 :: tail =>
    if jsWordChar p then none
    else if s1.toLower = 's' && r1.toLower = 'r' && c1.toLower = 'c' && e1 = '=' then
      match tail with
      | '"' :: u =>
        let q := runLen (fun c => c != '"') u
        (match u.drop q with
         | '"' :: v =>
           let r2 := runLen (fun c => c != '>') v
           match v.drop r2 with
           | '>' :: _ => some (d + 4 + 1 + q + 1 + r2 + 1)
           | _ => none
         | _ => none)
      | '\'' :: u =>
        let q := runLen (fun c => c != '\'') u
        (match u.drop q with
         | '\'' :: v =>
           let r2 := runLen (fun c => c != '>') v
           match v.drop r2 with
           | '>' :: _ => some (d + 4 + 1 + q + 1 + r2 + 1)
           | _ => none
         | _ => none)
      | _ => none
    else none
  | _ => none

/-- Greedy `[^>]*` before `\bsrc=`: try the longest admissible split
first, backing off one character at a time. -/
def tryImgSplits (rest : List Char) : Nat → Option Nat
  | 0 => none
  | d + 1 =>
    match matchImgFrom rest (d + 1) with
    | some n => some n
    | none => tryImgSplits rest d

/-- `<img\b[^>]*\bsrc=(?:"[^"]*"|'[^']*')[^>]*>` with flag `i`. -/
def matchImgTag (l : List Char) : Option Nat :=
  match l with
  | '<' :: i :: m :: g :: rest =>
    if i.toLower = 'i' && m.toLower = 'm' && g.toLower = 'g' then
      match rest with
      | [] => none
      | c :: _ =>
        if jsWordChar c then none
        else
          match tryImgSplits rest (runLen (fun c => c != '>') rest) with
          | some n => some (4 + n)
          | none => none
    else none
  | _ => none

/-- One attempt of the whole image pattern at the head of `l`: the three
top-level alternatives in written order. -/
def matchImageAt (l : List Char) : Option Nat :=
  match matchMdImage l with
  | some n => some n
  | none =>
    match matchWikiImage l with
    | some n => some n
    | none => matchImgTag l

/-!
## The scanning loop

`RegExp.prototype.exec` with the `g` flag finds, on each call, the
leftmost match at an index `≥ lastIndex`, then sets `lastIndex` past it.
`findFrom m text i` is one such search step for a matcher `m`.
-/

/-- Leftmost match of `m` at an index `≥ i`, fuel-indexed so that the
scan is structurally recursive (the wrapper supplies `text.length + 1`,
which the lemmas show always suffices). -/
def findFromF (m : List Char → Option Nat) (text : List Char) :
    Nat → Nat → Option (Nat × Nat)
  | 0, _ => none
  | fuel + 1, i =>
    if text.length ≤ i then none
    else
      match m (text.drop i) with
      | some len => some (i, len)
      | none => findFromF m text fuel (i + 1)

/-- Leftmost match of `m` at an index `≥ i`: returns the index and the
matched length. -/
def findFrom (m : List Char → Option Nat) (text : List Char) (i : Nat) :
    Option (Nat × Nat) :=
  findFromF m text (text.length + 1) i

theorem findFromF_sound (m : List Char → Option Nat) (text : List Char) :
    ∀ fuel i idx len, findFromF m text fuel i = some (idx, len) →
      i ≤ idx ∧ idx < text.length ∧ m (text.drop idx) = some len := by
  intro fuel
  induction fuel with
  | zero => intro i idx len h; exact absurd h (by simp [findFromF])
  | succ fuel ih =>
    intro i idx len h
    rw [findFromF] at h
    split at h
    · exact absurd h (by simp)
    · rename_i hlt
      split at h
      · rename_i len0 hm
        cases h
        exact ⟨le_refl _, by omega, hm⟩
      · have := ih (i + 1) idx len h
        exact ⟨by omega, this.2.1, this.2.2⟩

theorem findFrom_sound (m : List Char → Option Nat) (text : List Char)
    (i idx len : Nat) (h : findFrom m text i = some (idx, len)) :
    i ≤ idx ∧ idx < text.length ∧ m (text.drop idx) = some len :=
  findFromF_sound m text _ i idx len h

theorem findFromF_min (m : List Char → Option Nat) (text : List Char) :
    ∀ fuel i idx len, findFromF m text fuel i = some (idx, len) →
      ∀ j, i ≤ j → j < idx → m (text.drop j) = none := by
  intro fuel
  induction fuel with
  | zero => intro i idx len h; exact absurd h (by simp [findFromF])
  | succ fuel ih =>
    intro i idx len h
    rw [findFromF] at h
    split at h
    · exact absurd h (by simp)
    · split at h
      · cases h
        intro j h1 h2
        omega
      · rename_i hm
        intro j h1 h2
        rcases Nat.eq_or_lt_of_le h1 with rfl | hlt
        · exact hm
        · exact ih (i + 1) idx len h j hlt h2

theorem findFrom_min (m : List Char → Option Nat) (text : List Char)
    (i idx len : Nat) (h : findFrom m text i = some (idx, len)) :
    ∀ j, i ≤ j → j < idx → m (text.drop j) = none :=
  findFromF_min m text _ i idx len h

theorem findFromF_none (m : List Char → Option Nat) (text : List Char) :
    ∀ fuel i, text.length - i < fuel → findFromF m text fuel i = none →
      ∀ j, i ≤ j → j < text.length → m (text.drop j) = none := by
  intro fuel
  induction fuel with
  | zero => intro i hle; omega
  | succ fuel ih =>
    intro i hle h
    rw [findFromF] at h
    split at h
    · rename_i hge
      intro j h1 h2
      omega
    · split at h
      · exact absurd h (by simp)
      · rename_i hm
        intro j h1 h2
        rcases Nat.eq_or_lt_of_le h1 with rfl | hlt
        · exact hm
        · exact ih (i + 1) (by omega) h j hlt h2

theorem findFrom_none (m : List Char → Option Nat) (text : List Char)
    (i : Nat) (h : findFrom m text i = none) :
    ∀ j, i ≤ j → j < text.length → m (text.drop j) = none :=
  findFromF_none m text (text.length + 1) i (by omega) h

/-- The loop body of `splitContentByImageMarkdown` (fuel-indexed; the
wrapper supplies `text.length + 1`, which the lemmas show is enough):

```
let match = imagePattern.exec(text);
while (match !== null) {
  if (match.index > currentIndex) chunks.push(text.slice(currentIndex, match.index));
  chunks.push(match[0]);
  currentIndex = match.index + match[0].length;
  match = imagePattern.exec(text);
}
if (currentIndex < text.length) chunks.push(text.slice(currentIndex));
```
-/
def splitChunksAux (text : List Char) : Nat → Nat → List (List Char)
  | 0, _ => []
  | fuel + 1, cur =>
    match findFrom matchImageAt text cur with
    | none => if cur < text.length then [sliceL text cur text.length] else []
    | some (idx, len) =>
      (if cur < idx then [sliceL text cur idx] else []) ++
        sliceL text idx (idx + len) :: splitChunksAux text fuel (idx + len)

/-- `splitContentByImageMarkdown` of `TranslatorService`. -/
def splitContentByImageMarkdown (text : String) : List String :=
  (splitChunksAux text.data (text.data.length + 1) 0).map List.asString

/-- The page-boundary marker `<!-- Page \d+ -->` matched at the head of a
suffix. -/
def matchPageMarker (l : List Char) : Option Nat :=
  if ("<!-- Page ".data).isPrefixOf l then
    let t := l.drop 10
    let r := runLen Char.isDigit t
    if r = 0 then none
    else if (" -->".data).isPrefixOf (t.drop r) then some (10 + r + 4)
    else none
  else none

/-- `String.prototype.split` on a (never zero-length) regex: the pieces
between consecutive matches, empty pieces included (fuel-indexed like
`splitChunksAux`). -/
def splitPiecesAux (m : List Char → Option Nat) (text : List Char) :
    Nat → Nat → List (List Char)
  | 0, _ => []
  | fuel + 1, cur =>
    match findFrom m text cur with
    | none => [sliceL text cur text.length]
    | some (idx, len) =>
      sliceL text cur idx :: splitPiecesAux m text fuel (idx + len)

/-- `splitByPages` of `TranslatorService`:

```
const pageMarker = /<!-- Page \d+ -->/g;
const parts = content.split(pageMarker).filter((p) => p.trim());
return parts.length > 1 ? parts : [content];
```
-/
def splitByPages (content : String) : List String :=
  let parts :=
    ((splitPiecesAux matchPageMarker content.data (content.data.length + 1) 0).map
        List.asString).filter (fun p => !(jsTrim p).isEmpty)
  if parts.length > 1 then parts else [content]

/-- The markdown-image alternative anchored at both ends (`^...$`), for
`isImageMarkdownTag`. -/
def mdImageAnchored (l : List Char) : Bool :=
  match l with
  | '!' :: '[' :: t =>
    let r1 := runLen (fun c => c != ']') t
    (match t.drop r1 with
     | ']' :: '(' :: _ =>
       let u := t.drop (r1 + 2)
       let w1 := runLen jsWhitespace u
       let b := u.drop w1
       let pre := 2 + r1 + 2 + w1
       ((match matchMdGroupA b with
         | some g => pre + g = l.length
         | none => false) ||
        (let r3 := runLen (fun c => c != ')' && !(jsWhitespace c)) b
         if r3 = 0 then false
         else
           match matchMdTitle (b.drop r3) with
           | some m => pre + r3 + m = l.length
           | none => false))
     | _ => false)
  | _ => false

/-- Anchored variant of the `[^>]*\bsrc=` split search: with `$` at the
end, every admissible split whose continuation reaches exactly the end of
the string is accepted, not only the greedy-first one. -/
def anchImgSplits (rest : List Char) (target : Nat) : Nat → Bool
  | 0 => false
  | d + 1 =>
    (match matchImgFrom rest (d + 1) with
     | some n => 4 + n = target
     | none => false) ||
    anchImgSplits rest target d

def imgTagAnchored (l : List Char) : Bool :=
  match l with
  | '<' :: i :: m :: g :: rest =>
    if i.toLower = 'i' && m.toLower = 'm' && g.toLower = 'g' then
      match rest with
      | [] => false
      | c :: _ =>
        if jsWordChar c then false
        else anchImgSplits rest l.length (runLen (fun c => c != '>') rest)
    else false
  | _ => false

/-!
## Losslessness of the chunk scan
-/

theorem closeParen_pos {l : List Char} {w : Nat} (h : closeParen l = some w) :
    1 ≤ w := by
  simp only [closeParen] at h
  split at h
  all_goals try cases h
  all_goals omega

theorem matchMdImage_pos {l : List Char} {n : Nat} (h : matchMdImage l = some n) :
    1 ≤ n := by
  simp only [matchMdImage] at h
  repeat' split at h
  all_goals try cases h
  all_goals omega

theorem matchWikiImage_pos {l : List Char} {n : Nat}
    (h : matchWikiImage l = some n) : 1 ≤ n := by
  simp only [matchWikiImage] at h
  repeat' split at h
  all_goals try cases h
  all_goals omega

theorem matchImgTag_pos {l : List Char} {n : Nat} (h : matchImgTag l = some n) :
    1 ≤ n := by
  simp only [matchImgTag] at h
  repeat' split at h
  all_goals try cases h
  all_goals omega

theorem matchImageAt_pos {l : List Char} {n : Nat} (h : matchImageAt l = some n) :
    1 ≤ n := by
  unfold matchImageAt at h
  split at h
  · cases h
    exact matchMdImage_pos (by assumption)
  · split at h
    · cases h
      exact matchWikiImage_pos (by assumption)
    · exact matchImgTag_pos h

theorem sliceL_append_drop (l : List Char) (a b : Nat) (hab : a ≤ b) :
    sliceL l a b ++ l.drop b = l.drop a := by
  unfold sliceL
  have hb : l.drop b = (l.drop a).drop (b - a) := by
    rw [List.drop_drop]
    congr 1
    omega
  rw [hb, List.take_append_drop]

theorem splitChunksAux_flatten (text : List Char) :
    ∀ fuel cur, text.length - cur < fuel →
      (splitChunksAux text fuel cur).flatten = text.drop cur := by
  intro fuel
  induction fuel with
  | zero => intro cur h; omega
  | succ fuel ih =>
    intro cur hcur
    cases hf : findFrom matchImageAt text cur with
    | none =>
      simp only [splitChunksAux, hf]
      split
      · rename_i hlt
        simp only [List.flatten_cons, List.flatten_nil, List.append_nil]
        unfold sliceL
        exact List.take_of_length_le (by simp)
      · rename_i hge
        simp only [List.flatten_nil]
        exact (List.drop_eq_nil_of_le (by omega)).symm
    | some p =>
      obtain ⟨idx, len⟩ := p
      have hs := findFrom_sound matchImageAt text cur idx len hf
      have hpos : 1 ≤ len := matchImageAt_pos hs.2.2
      have hih := ih (idx + len) (by omega)
      simp only [splitChunksAux, hf]
      by_cases hci : cur < idx
      · rw [if_pos hci]
        simp only [List.cons_append, List.nil_append, List.flatten_cons]
        rw [hih, sliceL_append_drop text idx (idx + len) (by omega),
          sliceL_append_drop text cur idx (by omega)]
      · rw [if_neg hci]
        have heq : idx = cur := by omega
        subst heq
        simp only [List.nil_append, List.flatten_cons]
        rw [hih, sliceL_append_drop text idx (idx + len) (by omega)]

theorem join_map_asString (ls : List (List Char)) :
    String.join (ls.map List.asString) = ⟨ls.flatten⟩ := by
  have H : ∀ (ls : List (List Char)) (acc : String),
      List.foldl (· ++ ·) acc (ls.map List.asString) = ⟨acc.data ++ ls.flatten⟩ := by
    intro ls
    induction ls with
    | nil => intro acc; simp
    | cons x xs ih =>
      intro acc
      simp only [List.map_cons, List.foldl_cons, List.flatten_cons, ih]
      congr 1
      simp [List.asString, String.append]
  simpa [String.join] using H ls ""

/-- The chunks of `splitContentByImageMarkdown`, concatenated in order,
are exactly the input. -/
theorem splitContentByImageMarkdown_join (s : String) :
    String.join (splitContentByImageMarkdown s) = s := by
  unfold splitContentByImageMarkdown
  rw [join_map_asString, splitChunksAux_flatten s.data (s.data.length + 1) 0 (by omega)]
  simp

/-!
## Image-chunk atomicity

`matchSpansAux` records the `(start, end)` spans of the successive
`exec` matches; `chunkSpansAux` records the spans of the emitted chunks.
-/

def matchSpansAux (text : List Char) : Nat → Nat → List (Nat × Nat)
  | 0, _ => []
  | fuel + 1, cur =>
    match findFrom matchImageAt text cur with
    | none => []
    | some (idx, len) => (idx, idx + len) :: matchSpansAux text fuel (idx + len)

def chunkSpansAux (text : List Char) : Nat → Nat → List (Nat × Nat)
  | 0, _ => []
  | fuel + 1, cur =>
    match findFrom matchImageAt text cur with
    | none => if cur < text.length then [(cur, text.length)] else []
    | some (idx, len) =>
      (if cur < idx then [(cur, idx)] else []) ++
        (idx, idx + len) :: chunkSpansAux text fuel (idx + len)

/-- The spans of the image references the scanner finds in `text`. -/
def imageSpans (text : String) : List (Nat × Nat) :=
  matchSpansAux text.data (text.data.length + 1) 0

/-- The spans of the chunks `splitContentByImageMarkdown` emits. -/
def chunkSpans (text : String) : List (Nat × Nat) :=
  chunkSpansAux text.data (text.data.length + 1) 0

theorem splitChunksAux_eq_map_spans (text : List Char) :
    ∀ fuel cur, splitChunksAux text fuel cur =
      (chunkSpansAux text fuel cur).map (fun p => sliceL text p.1 p.2) := by
  intro fuel
  induction fuel with
  | zero => intro cur; rfl
  | succ fuel ih =>
    intro cur
    cases hf : findFrom matchImageAt text cur with
    | none =>
      simp only [splitChunksAux, chunkSpansAux, hf]
      split <;> rfl
    | some p =>
      obtain ⟨idx, len⟩ := p
      simp only [splitChunksAux, chunkSpansAux, hf, List.map_append, List.map_cons,
        ih]
      split <;> rfl

theorem matchSpansAux_lb (text : List Char) :
    ∀ fuel cur, ∀ m ∈ matchSpansAux text fuel cur, cur ≤ m.1 ∧ m.1 < m.2 := by
  intro fuel
  induction fuel with
  | zero => intro cur m hm; cases hm
  | succ fuel ih =>
    intro cur m hm
    rw [matchSpansAux] at hm
    split at hm
    · cases hm
    · rename_i idx len hf
      have hs := findFrom_sound matchImageAt text cur idx len hf
      have hpos : 1 ≤ len := matchImageAt_pos hs.2.2
      rcases List.mem_cons.mp hm with rfl | hm2
      · exact ⟨hs.1, by omega⟩
      · have := ih (idx + len) m hm2
        exact ⟨by omega, this.2⟩

theorem chunkSpansAux_lb (text : List Char) :
    ∀ fuel cur, ∀ s ∈ chunkSpansAux text fuel cur, cur ≤ s.1 ∧ s.1 < s.2 := by
  intro fuel
  induction fuel with
  | zero => intro cur s hs; cases hs
  | succ fuel ih =>
    intro cur s hs
    rw [chunkSpansAux] at hs
    split at hs
    · rename_i hf
      split at hs
      · rcases List.mem_singleton.mp hs with rfl
        exact ⟨le_refl _, by assumption⟩
      · cases hs
    · rename_i idx len hf
      have hfs := findFrom_sound matchImageAt text cur idx len hf
      have hpos : 1 ≤ len := matchImageAt_pos hfs.2.2
      rcases List.mem_append.mp hs with hg | hrest
      · split at hg
        · rcases List.mem_singleton.mp hg with rfl
          exact ⟨le_refl _, by assumption⟩
        · cases hg
      · rcases List.mem_cons.mp hrest with rfl | hm2
        · exact ⟨hfs.1, by omega⟩
        · have := ih (idx + len) s hm2
          exact ⟨by omega, this.2⟩

/-- Every image span the scanner finds is emitted as exactly one chunk,
and every other chunk lies entirely outside it. -/
theorem matchSpans_atomic (text : List Char) :
    ∀ fuel cur, ∀ m ∈ matchSpansAux text fuel cur,
      m ∈ chunkSpansAux text fuel cur ∧
      ∀ s ∈ chunkSpansAux text fuel cur, s = m ∨ s.2 ≤ m.1 ∨ m.2 ≤ s.1 := by
  intro fuel
  induction fuel with
  | zero => intro cur m hm; cases hm
  | succ fuel ih =>
    intro cur m hm
    rw [matchSpansAux] at hm
    split at hm
    · cases hm
    · rename_i idx len hf
      have hfs := findFrom_sound matchImageAt text cur idx len hf
      have hpos : 1 ≤ len := matchImageAt_pos hfs.2.2
      rw [chunkSpansAux]
      split
      · rename_i hf2
        rw [hf] at hf2
        cases hf2
      · rename_i idx2 len2 hf2
        rw [hf] at hf2
        cases hf2
        rcases List.mem_cons.mp hm with rfl | hm2
        · refine ⟨List.mem_append.mpr (Or.inr (List.mem_cons_self _ _)), ?_⟩
          intro s hsmem
          rcases List.mem_append.mp hsmem with hg | hrest
          · right; left
            split at hg
            · rcases List.mem_singleton.mp hg with rfl
              simp
            · cases hg
          · rcases List.mem_cons.mp hrest with rfl | hs2
            · left; rfl
            · right; right
              exact (chunkSpansAux_lb text fuel (idx + len) s hs2).1
        · obtain ⟨hin, hsep⟩ := ih (idx + len) m hm2
          have hmlb := matchSpansAux_lb text fuel (idx + len) m hm2
          refine ⟨List.mem_append.mpr (Or.inr (List.mem_cons_of_mem _ hin)), ?_⟩
          intro s hsmem
          rcases List.mem_append.mp hsmem with hg | hrest
          · right; left
            split at hg
            · rcases List.mem_singleton.mp hg with rfl
              simp only
              omega
            · cases hg
          · rcases List.mem_cons.mp hrest with rfl | hs2
            · right; left
              simp only
              omega
            · exact hsep s hs2

/-- `isImageMarkdownTag` of `TranslatorService`, in its evident intended
semantics: the three anchored tests on the trimmed text, the first being
the markdown-image pattern of `splitContentByImageMarkdown` anchored at
both ends (under anchoring the engine backtracks across the group
alternatives and the `[^>]*` split, so every path is admitted, not only
the greedy-first one).  As written in the source the first regex literal
`/^!\[[^\]]*\]\(\s*(?:<[^>]+>|[^)\s]+(?:\s+(?:\"[^\"]*\"|'[^']*'))?\s*\)$/`
is missing the `)` that closes its outermost `(?:` group (the companion
pattern in `splitContentByImageMarkdown` has it), which is an ECMAScript
early SyntaxError; the definition here models the balanced form. -/
def isImageMarkdownTag (text : String) : Bool :=
  let trimmed := trimChars text.data
  mdImageAnchored trimmed ||
  (match matchWikiImage trimmed with
   | some n => n = trimmed.length
   | none => false) ||
  imgTagAnchored trimmed

/-!
## The faithful-translation stage (`translateFaithful`)

The stage is modelled as a pure function of the document, the output
folder, the target language, and an oracle giving the provider call
results in call order.  Its observable behaviour is the returned result
plus the ordered trace of provider calls and checkpoint writes.  UI
progress callbacks, the inter-unit delay, and usage recording (modelled
separately with the ledger) have no bearing on the claims settled here
and are not part of the trace.  JS `$`-substitution patterns in
`String.prototype.replace` replacement arguments are not modelled (no
fixed template placeholder expands to one).
-/

/-- `String.prototype.replace` with a string pattern: first occurrence
only. -/
def replFirstAux (pat rep : List Char) : List Char → List Char
  | [] => []
  | c :: cs =>
    if pat.isPrefixOf (c :: cs) then rep ++ (c :: cs).drop pat.length
    else c :: replFirstAux pat rep cs

def replaceFirst (s pat rep : String) : String :=
  ⟨replFirstAux pat.data rep.data s.data⟩

/-- `String.prototype.replace` with a `/literal/g` regex: every
(non-overlapping, left-to-right) occurrence. -/
def replAllAux (pat rep : List Char) : Nat → List Char → List Char
  | _, [] => []
  | 0, l => l
  | fuel + 1, c :: cs =>
    if pat.isPrefixOf (c :: cs) then
      rep ++ replAllAux pat rep fuel ((c :: cs).drop pat.length)
    else c :: replAllAux pat rep fuel cs

def replaceAll (s pat rep : String) : String :=
  ⟨replAllAux pat.data rep.data (s.data.length + 1) s.data⟩

/-- The `FAITHFUL_TRANSLATION_PROMPT` template (value of the TS template
literal, escapes resolved). -/
def FAITHFUL_TRANSLATION_PROMPT : String :=
"You are a professional translator specializing in AI/ML academic papers.

## CRITICAL RULES

1. **Language**:
   - Output MUST be written entirely in {target_language}.
   - Translate ALL sentences completely. No source language sentences should remain untranslated.

2. **Completeness is Top Priority**:
   - Translate every sentence, every word
   - NO abbreviation, summarization, or omission allowed
   - NO adding information, NO changing meaning

3. **Technical Term Annotation (Mandatory)**:
   - For AI/CS academic terms, annotate with English(target language translation) on first occurrence
   - Example: LLM(Large Language Model), attention mechanism(attention mechanism in {target_language})
   - On reoccurrence, you may use English only or English(translation)
   - Proper nouns, model names, and dataset names should remain in English

4. **Preserve Equations/References**:
   - Do NOT modify any content within equations ($$...$$, $...$)
   - Maintain Figure X, Table Y, Equation Z, citation [1] formats
   - Preserve section references

5. **OCR Readability Correction Allowed (Content Unchanged)**:
   - Paragraph/line breaks may be adjusted for readability
   - If a line continues for 4-5+ lines, add line breaks at sentence boundaries
   - If a paragraph has 4-5+ sentences, split into 2-3 paragraphs
   - Lists of 3+ items may be converted to bullets (-) or numbering (1., 2., 3.)
   - \"(1)...(2)...(3)...\" patterns should be organized into numbered lists

6. **Equation Block Formatting**:
   - If `$$` appears alone, try to match block pairs when possible
   - Do NOT modify the equation content itself

7. **Readability Enhancement Rules**:
   - Split long sentences (40+ characters) into 2-3 sentences
   - Add 1 blank line after each sentence
   - Merge very short sentences (<10 characters) if it flows naturally
   - Complex conditionals/enumerations should be split into bullets
   - Long paragraphs (5+ sentences) should be split at topic transitions
   - Minimize unnecessary passive voice/redundant expressions while preserving meaning
   - Simplify verbose expressions while keeping the meaning intact

8. **Formatting/LaTeX Rendering Correction**:
   - Key terms/subheadings that need emphasis may use bold (**...**) or italics (*...*)
   - Do not overuse or change the original meaning
   - Check LaTeX equations for balanced parentheses/braces/backslashes
   - Fix broken tokens/missing parentheses/incorrect delimiters in commands like `\\mathcal`, `\\mathbf`, `\\langle` based on context
   - Preserve equation content, but restore broken tokens/missing parentheses/incorrect delimiters

## Translation Style

- Image syntax protection rule:
  - Preserve all Markdown image links exactly as input, including `![alt](path)` and `![[path]]`.
  - Do not remove, split, reformat, or rename image links during translation.

- Use formal academic tone appropriate for {target_language}
- Use declarative statements
- Maintain scholarly register throughout

## Previous Context (Reference only, do NOT translate)
{previous_context}

## Current Page (Translate the content below)
{text}

## Output
Output pure markdown only (no code blocks).
Preserve the content as-is, but readability improvements via line breaks/list formatting are allowed."

/-- The per-chunk prompt:
`FAITHFUL_TRANSLATION_PROMPT.replace(/{target_language}/g, targetLanguage)`
`.replace(\"{previous_context}\", chunkContext).replace(\"{text}\", chunk)`. -/
def buildPrompt (targetLanguage chunkContext chunk : String) : String :=
  replaceFirst
    (replaceFirst (replaceAll FAITHFUL_TRANSLATION_PROMPT "{target_language}" targetLanguage)
      "{previous_context}" chunkContext)
    "{text}" chunk

/-- JS `String.prototype.split(\"\\n\")`: segments between newlines, empty
segments preserved, always at least one segment. -/
def splitNlAux : List Char → List (List Char)
  | [] => [[]]
  | c :: cs =>
    if c = '\n' then [] :: splitNlAux cs
    else
      match splitNlAux cs with
      | [] => [[c]]
      | h :: t => (c :: h) :: t

/-- The code-fence stripping applied to each translated chunk:

```
if (translatedChunk.startsWith(\"```\")) {
  const lines = translatedChunk.split(\"\\n\");
  if (lines[0].startsWith(\"```\")) lines.shift();
  if (lines.length > 0 && lines[lines.length-1].trim() === \"```\") lines.pop();
  translatedChunk = lines.join(\"\\n\");
}
```
-/
def stripCodeFence (s : String) : String :=
  if ("```".data).isPrefixOf s.data then
    let lines := splitNlAux s.data
    let lines1 :=
      match lines with
      | [] => []
      | l0 :: rest => if ("```".data).isPrefixOf l0 then rest else l0 :: rest
    let lines2 :=
      match lines1.getLast? with
      | some last => if trimChars last = "```".data then lines1.dropLast else lines1
      | none => lines1
    ⟨List.intercalate ['\n'] lines2⟩
  else s

/-- JS `s.slice(-n)`: the last `n` characters (the whole string when it is
shorter). -/
def lastStr (n : Nat) (s : String) : String :=
  ⟨s.data.drop (s.data.length - n)⟩

/-- The shape of a provider call result as consumed by the loop
(`{ success, data?, error?, usage? }`; usage is irrelevant to the trace
claims and omitted). -/
structure ChunkCallResult where
  success : Bool
  data : Option String
  error : Option String

/-- `if (!result.success || !result.data)` — JS falsiness of `data`
includes the empty string. -/
def callFailed (r : ChunkCallResult) : Bool :=
  !r.success ||
  (match r.data with
   | none => true
   | some d => d.isEmpty)

/-- `result.error || "Translation failed"`. -/
def errOf (r : ChunkCallResult) : String :=
  match r.error with
  | some e => if e.isEmpty then "Translation failed" else e
  | none => "Translation failed"

/-- Observable events of a stage run: provider calls (with the full
prompt) and checkpoint writes (with path and full content). -/
inductive Ev where
  | call (prompt : String)
  | save (path : String) (content : String)
deriving DecidableEq

/-- Result of the inner per-page chunk loop. -/
inductive ChunkRes where
  | ok (translated ctx : String) (k : Nat) (evs : List Ev)
  | fail (e : String) (evs : List Ev)

/-- The inner loop of `translateFaithful` over one page's chunks
(`for (const chunk of pageChunks) { ... }`): whitespace-only chunks and
image-markup chunks are copied through without a provider call; other
chunks are sent, the result is fence-stripped and appended, and the
chunk context becomes the last 200 characters of the accumulated page
output; a failed call aborts immediately. -/
def chunkLoop (oracle : Nat → ChunkCallResult) (tl : String) :
    List String → String → String → Nat → ChunkRes
  | [], ctx, translated, k => .ok translated ctx k []
  | chunk :: rest, ctx, translated, k =>
    if (jsTrim chunk).isEmpty then chunkLoop oracle tl rest ctx (translated ++ chunk) k
    else if isImageMarkdownTag chunk then chunkLoop oracle tl rest ctx (translated ++ chunk) k
    else
      let prompt := buildPrompt tl ctx chunk
      let r := oracle k
      if callFailed r then .fail (errOf r) [.call prompt]
      else
        let translatedChunk := stripCodeFence (r.data.getD "")
        let translated2 := translated ++ translatedChunk
        let ctx2 := if (jsTrim translatedChunk).isEmpty then ctx else lastStr 200 translated2
        match chunkLoop oracle tl rest ctx2 translated2 (k + 1) with
        | .ok t c k2 evs => .ok t c k2 (.call prompt :: evs)
        | .fail e evs => .fail e (.call prompt :: evs)

/-- JS `Array.prototype.join(sep)`. -/
def joinSep (sep : String) : List String → String
  | [] => ""
  | [x] => x
  | x :: xs => x ++ sep ++ joinSep sep xs

/-- Result of the outer page loop. -/
inductive PageRes where
  | ok (translations : List String) (k : Nat) (evs : List Ev)
  | fail (e : String) (evs : List Ev)

/-- The progress header prepended to every non-final checkpoint. -/
def progressHeader (i total : Nat) : String :=
  if i < total - 1 then
    "<!-- Î≤àÏó≠ ÏßÑÌñâ Ï§ë: " ++ toString (i + 1) ++ "/" ++ toString total ++
      " ÌéòÏù¥ÏßÄ ÏôÑÎ£å -->\n\n"
  else ""

/-- The outer loop of `translateFaithful` over pages: each page is
sub-split, run through `chunkLoop`, appended to `translations`, and the
joined accumulated output (with progress header) is checkpointed to
`translated_raw.md`. -/
def pageLoop (oracle : Nat → ChunkCallResult) (tl folder : String) (total : Nat) :
    List String → Nat → String → List String → Nat → PageRes
  | [], _, _, done, k => .ok done k []
  | page :: rest, i, prevCtx, done, k =>
    let pageChunks := splitContentByImageMarkdown page
    match chunkLoop oracle tl pageChunks prevCtx "" k with
    | .fail e evs => .fail e evs
    | .ok translated _ k2 evs =>
      let done2 := done ++ [translated]
      let current := joinSep "\n\n" done2
      let saveEv := Ev.save (folder ++ "/translated_raw.md") (progressHeader i total ++ current)
      let prevCtx2 := if translated.data.length > 200 then lastStr 200 translated else translated
      match pageLoop oracle tl folder total rest (i + 1) prevCtx2 done2 k2 with
      | .ok d k3 evs2 => .ok d k3 (evs ++ saveEv :: evs2)
      | .fail e evs2 => .fail e (evs ++ saveEv :: evs2)

/-- The empty-file placeholder written before the first unit
(`# Î≤àÏó≠ ÏßÑÌñâ Ï§ë...` with the page count). -/
def initialPlaceholder (n : Nat) : String :=
  "# Î≤àÏó≠ ÏßÑÌñâ Ï§ë...\n\n_" ++ toString n ++ "Í∞ú ÌéòÏù¥ÏßÄ Î≤àÏó≠ ÏãúÏûë_\n\n---\n\n"

/-- Result of `translateFaithful`: the `TranslationResult` value plus the
event trace. -/
structure TransRes where
  success : Bool
  translation : Option String
  error : Option String
  events : List Ev

/-- `translateFaithful(content, outputFolder)` of `TranslatorService`,
as a function of the call oracle: split into pages, write the initial
placeholder file, run the page loop, and on success write the final
clean checkpoint. -/
def translateFaithful (oracle : Nat → ChunkCallResult) (tl : String)
    (content folder : String) : TransRes :=
  let pages := splitByPages content
  let initEv := Ev.save (folder ++ "/translated_raw.md") (initialPlaceholder pages.length)
  match pageLoop oracle tl folder pages.length pages 0 "(First page)" [] 0 with
  | .fail e evs =>
    { success := false, translation := none, error := some e,
      events := initEv :: evs }
  | .ok done _ evs =>
    let fullTranslation := joinSep "\n\n" done
    { success := true, translation := some fullTranslation, error := none,
      events := initEv :: (evs ++ [Ev.save (folder ++ "/translated_raw.md") fullTranslation]) }

/-!
## Trace lemmas: failure aborts immediately; checkpoints grow
-/

def isCall : Ev → Bool
  | .call _ => true
  | .save _ _ => false

def countCalls (evs : List Ev) : Nat :=
  (evs.filter isCall).length

def savesOf (evs : List Ev) : List Ev :=
  evs.filter (fun ev => !isCall ev)

theorem countCalls_cons_call (p : String) (evs : List Ev) :
    countCalls (Ev.call p :: evs) = countCalls evs + 1 := by
  simp [countCalls, isCall]

theorem countCalls_append (a b : List Ev) :
    countCalls (a ++ b) = countCalls a + countCalls b := by
  simp [countCalls]

/-- A failed inner loop's trace is a run of provider calls ending in the
failing one; the reported error is that call's, and its index is the
number of calls already issued. -/
theorem chunkLoop_fail (oracle : Nat → ChunkCallResult) (tl : String) :
    ∀ chunks ctx translated k e evs,
      chunkLoop oracle tl chunks ctx translated k = .fail e evs →
      ∃ pre prompt, evs = pre ++ [Ev.call prompt] ∧
        (∀ ev ∈ pre, isCall ev = true) ∧
        callFailed (oracle (k + countCalls pre)) = true ∧
        e = errOf (oracle (k + countCalls pre)) := by
  intro chunks
  induction chunks with
  | nil =>
    intro ctx translated k e evs h
    simp only [chunkLoop] at h
    cases h
  | cons chunk rest ih =>
    intro ctx tr k e evs h
    simp only [chunkLoop] at h
    split at h
    · exact ih _ _ _ _ _ h
    · split at h
      · exact ih _ _ _ _ _ h
      · split at h
        · rename_i hfail
          cases h
          refine ⟨[], _, rfl, by simp, ?_, ?_⟩
          · simpa [countCalls] using hfail
          · simp [countCalls]
        · rename_i hok
          split at h
          · cases h
          · rename_i e2 evs2 heq
            cases h
            obtain ⟨pre2, p2, hevs2, hcalls2, hfail2, herr2⟩ := ih _ _ _ _ _ heq
            subst hevs2
            refine ⟨Ev.call (buildPrompt tl ctx chunk) :: pre2, p2, by simp, ?_, ?_, ?_⟩
            · intro ev hev
              rcases List.mem_cons.mp hev with rfl | hev2
              · rfl
              · exact hcalls2 ev hev2
            · rw [countCalls_cons_call]
              have harith : k + (countCalls pre2 + 1) = k + 1 + countCalls pre2 := by omega
              rw [harith]
              exact hfail2
            · rw [countCalls_cons_call]
              have harith : k + (countCalls pre2 + 1) = k + 1 + countCalls pre2 := by omega
              rw [harith]
              exact herr2

/-- A successful inner loop's trace is all provider calls, and the call
counter advances by exactly their number. -/
theorem chunkLoop_ok (oracle : Nat → ChunkCallResult) (tl : String) :
    ∀ chunks ctx translated k t c k2 evs,
      chunkLoop oracle tl chunks ctx translated k = .ok t c k2 evs →
      (∀ ev ∈ evs, isCall ev = true) ∧ k2 = k + countCalls evs := by
  intro chunks
  induction chunks with
  | nil =>
    intro ctx translated k t c k2 evs h
    simp only [chunkLoop] at h
    cases h
    exact ⟨by simp, by simp [countCalls]⟩
  | cons chunk rest ih =>
    intro ctx tr k t c k2 evs h
    simp only [chunkLoop] at h
    split at h
    · exact ih _ _ _ _ _ _ _ h
    · split at h
      · exact ih _ _ _ _ _ _ _ h
      · split at h
        · cases h
        · split at h
          · rename_i t2 c2 k3 evs2 heq
            cases h
            obtain ⟨hcalls2, hk2⟩ := ih _ _ _ _ _ _ _ heq
            constructor
            · intro ev hev
              rcases List.mem_cons.mp hev with rfl | hev2
              · rfl
              · exact hcalls2 ev hev2
            · rw [countCalls_cons_call]
              omega
          · cases h

/-- A failed page loop's trace also ends in the failing call, with the
error and index as in `chunkLoop_fail`; earlier checkpoints stay in the
trace untouched. -/
theorem pageLoop_fail (oracle : Nat → ChunkCallResult) (tl folder : String) (total : Nat) :
    ∀ pages i prevCtx done k e evs,
      pageLoop oracle tl folder total pages i prevCtx done k = .fail e evs →
      ∃ pre prompt, evs = pre ++ [Ev.call prompt] ∧
        callFailed (oracle (k + countCalls pre)) = true ∧
        e = errOf (oracle (k + countCalls pre)) := by
  intro pages
  induction pages with
  | nil =>
    intro i prevCtx done k e evs h
    simp only [pageLoop] at h
    cases h
  | cons page rest ih =>
    intro i prevCtx done k e evs h
    simp only [pageLoop] at h
    split at h
    · rename_i e2 evs2 heq
      cases h
      obtain ⟨pre, p, hevs, _, hfail, herr⟩ := chunkLoop_fail oracle tl _ _ _ _ _ _ heq
      exact ⟨pre, p, hevs, hfail, herr⟩
    · rename_i t2 c2 k3 evs2 heq
      split at h
      · cases h
      · rename_i e3 evs3 heq3
        cases h
        obtain ⟨hcalls2, hk3⟩ := chunkLoop_ok oracle tl _ _ _ _ _ _ _ _ heq
        obtain ⟨pre3, p3, hevs3, hfail3, herr3⟩ := ih _ _ _ _ _ _ heq3
        subst hevs3
        refine ⟨evs2 ++ Ev.save (folder ++ "/translated_raw.md")
            (progressHeader i total ++
              joinSep "\n\n" (done ++ [t2])) :: pre3, p3, ?_, ?_, ?_⟩
        · simp
        · have harith :
              countCalls (evs2 ++ Ev.save (folder ++ "/translated_raw.md")
                (progressHeader i total ++
                  joinSep "\n\n" (done ++ [t2])) :: pre3) =
              countCalls evs2 + countCalls pre3 := by
            rw [countCalls_append]
            simp [countCalls, isCall]
          rw [harith]
          have : k + (countCalls evs2 + countCalls pre3) = k3 + countCalls pre3 := by omega
          rw [this]
          exact hfail3
        · have harith :
              countCalls (evs2 ++ Ev.save (folder ++ "/translated_raw.md")
                (progressHeader i total ++
                  joinSep "\n\n" (done ++ [t2])) :: pre3) =
              countCalls evs2 + countCalls pre3 := by
            rw [countCalls_append]
            simp [countCalls, isCall]
          rw [harith]
          have : k + (countCalls evs2 + countCalls pre3) = k3 + countCalls pre3 := by omega
          rw [this]
          exact herr3

theorem joinSep_cons_cons (sep a b : String) (l : List String) :
    joinSep sep (a :: b :: l) = a ++ sep ++ joinSep sep (b :: l) := rfl

theorem joinSep_append_singleton (sep : String) :
    ∀ (xs : List String) (x : String), xs ≠ [] →
      joinSep sep (xs ++ [x]) = joinSep sep xs ++ sep ++ x := by
  intro xs
  induction xs with
  | nil => intro x h; exact absurd rfl h
  | cons a as ih =>
    intro x _
    cases as with
    | nil => simp [joinSep]
    | cons b bs =>
      have hstep := ih x (by simp)
      rw [List.cons_append] at hstep
      show joinSep sep (a :: (b :: bs ++ [x])) = joinSep sep (a :: b :: bs) ++ sep ++ x
      rw [List.cons_append, joinSep_cons_cons, hstep, joinSep_cons_cons]
      simp [String.append_assoc]

theorem savesOf_all_calls {evs : List Ev} (h : ∀ ev ∈ evs, isCall ev = true) :
    savesOf evs = [] := by
  unfold savesOf
  rw [List.filter_eq_nil]
  intro ev hev
  simp [h ev hev]

/-- A successful page loop checkpoints, in order, the accumulated joined
translations of each page prefix, each prefixed with that page's progress
header. -/
theorem pageLoop_ok_saves (oracle : Nat → ChunkCallResult) (tl folder : String)
    (total : Nat) :
    ∀ pages i prevCtx done k done2 k2 evs,
      pageLoop oracle tl folder total pages i prevCtx done k = .ok done2 k2 evs →
      ∃ ts, done2 = done ++ ts ∧ ts.length = pages.length ∧
        savesOf evs = (List.range pages.length).map (fun j =>
          Ev.save (folder ++ "/translated_raw.md")
            (progressHeader (i + j) total ++ joinSep "\n\n" (done ++ ts.take (j + 1)))) := by
  intro pages
  induction pages with
  | nil =>
    intro i prevCtx done k done2 k2 evs h
    simp only [pageLoop] at h
    cases h
    exact ⟨[], by simp, rfl, by simp [savesOf]⟩
  | cons page rest ih =>
    intro i prevCtx done k done2 k2 evs h
    simp only [pageLoop] at h
    split at h
    · cases h
    · rename_i t2 c2 k3 evs2 heq
      split at h
      · rename_i d2 k4 evs3 heq3
        cases h
        obtain ⟨hcalls2, _⟩ := chunkLoop_ok oracle tl _ _ _ _ _ _ _ _ heq
        obtain ⟨ts', hdone, hlen, hsaves⟩ := ih _ _ _ _ _ _ _ heq3
        refine ⟨t2 :: ts', ?_, by simp [hlen], ?_⟩
        · rw [hdone]
          simp
        · have hsplit : savesOf (evs2 ++ Ev.save (folder ++ "/translated_raw.md")
              (progressHeader i total ++ joinSep "\n\n" (done ++ [t2])) :: evs3) =
              Ev.save (folder ++ "/translated_raw.md")
                (progressHeader i total ++ joinSep "\n\n" (done ++ [t2])) :: savesOf evs3 := by
            unfold savesOf
            rw [List.filter_append]
            rw [show (evs2.filter (fun ev => !isCall ev)) = [] from savesOf_all_calls hcalls2]
            simp [isCall]
          rw [hsplit, hsaves]
          rw [List.length_cons, List.range_succ_eq_map, List.map_cons, List.map_map]
          have hmap :
              List.map ((fun j =>
                  Ev.save (folder ++ "/translated_raw.md")
                    (progressHeader (i + j) total ++
                      joinSep "\n\n" (done ++ List.take (j + 1) (t2 :: ts')))) ∘ Nat.succ)
                (List.range rest.length) =
              List.map (fun j =>
                  Ev.save (folder ++ "/translated_raw.md")
                    (progressHeader (i + 1 + j) total ++
                      joinSep "\n\n" (done ++ [t2] ++ List.take (j + 1) ts')))
                (List.range rest.length) := by
            apply List.map_congr_left
            intro j hj
            simp only [Function.comp_apply]
            have h1 : i + Nat.succ j = i + 1 + j := by omega
            rw [h1, List.take_succ_cons]
            simp
          rw [hmap]
          simp
      · cases h

theorem countCalls_cons_save (p c : String) (evs : List Ev) :
    countCalls (Ev.save p c :: evs) = countCalls evs := by
  simp [countCalls, isCall]

theorem savesOf_cons_save (p c : String) (evs : List Ev) :
    savesOf (Ev.save p c :: evs) = Ev.save p c :: savesOf evs := by
  simp [savesOf, isCall]

theorem savesOf_append (a b : List Ev) :
    savesOf (a ++ b) = savesOf a ++ savesOf b := by
  simp [savesOf, List.filter_append]

theorem savesOf_singleton_save (p c : String) :
    savesOf [Ev.save p c] = [Ev.save p c] := by
  simp [savesOf, isCall]

/-- A failed stage run: the trace ends at the failing provider call (so no
later call is issued and no later checkpoint write happens), the error is
the failing call's, and the failing call's index is the number of calls
before it. -/
theorem translateFaithful_fail_spec (oracle : Nat → ChunkCallResult)
    (tl content folder : String)
    (h : (translateFaithful oracle tl content folder).success = false) :
    ∃ pre prompt,
      (translateFaithful oracle tl content folder).events = pre ++ [Ev.call prompt] ∧
      callFailed (oracle (countCalls pre)) = true ∧
      (translateFaithful oracle tl content folder).error =
        some (errOf (oracle (countCalls pre))) ∧
      (translateFaithful oracle tl content folder).translation = none := by
  cases hp : pageLoop oracle tl folder (splitByPages content).length
      (splitByPages content) 0 "(First page)" [] 0 with
  | ok done k evs =>
    simp only [translateFaithful, hp] at h
    exact absurd h (by simp)
  | fail e evs =>
    simp only [translateFaithful, hp] at h ⊢
    obtain ⟨pre, p, hevs, hfail, herr⟩ :=
      pageLoop_fail oracle tl folder _ _ _ _ _ _ _ _ hp
    subst hevs
    refine ⟨Ev.save (folder ++ "/translated_raw.md")
        (initialPlaceholder (splitByPages content).length) :: pre, p, by simp, ?_, ?_, by simp⟩
    · rw [countCalls_cons_save]
      simpa using hfail
    · rw [countCalls_cons_save]
      simpa using herr

/-- A successful stage run: the checkpoint writes are, in order, the
initial placeholder, one checkpoint per page consisting of that page's
progress header followed by the joined translations of the pages so far,
and the final clean save of the full joined translation. -/
theorem translateFaithful_ok_saves (oracle : Nat → ChunkCallResult)
    (tl content folder : String)
    (h : (translateFaithful oracle tl content folder).success = true) :
    ∃ ts : List String,
      ts.length = (splitByPages content).length ∧
      (translateFaithful oracle tl content folder).translation =
        some (joinSep "\n\n" ts) ∧
      savesOf (translateFaithful oracle tl content folder).events =
        Ev.save (folder ++ "/translated_raw.md") (initialPlaceholder ts.length) ::
        ((List.range ts.length).map fun j =>
          Ev.save (folder ++ "/translated_raw.md")
            (progressHeader j ts.length ++ joinSep "\n\n" (ts.take (j + 1)))) ++
        [Ev.save (folder ++ "/translated_raw.md") (joinSep "\n\n" ts)] := by
  cases hp : pageLoop oracle tl folder (splitByPages content).length
      (splitByPages content) 0 "(First page)" [] 0 with
  | fail e evs =>
    simp only [translateFaithful, hp] at h
    exact absurd h (by simp)
  | ok done k evs =>
    simp only [translateFaithful, hp] at h ⊢
    obtain ⟨ts, hdone, hlen, hsaves⟩ :=
      pageLoop_ok_saves oracle tl folder _ _ _ _ _ _ _ _ _ hp
    have hts : done = ts := by simpa using hdone
    subst hts
    refine ⟨done, hlen, rfl, ?_⟩
    rw [savesOf_cons_save, savesOf_append, savesOf_singleton_save, hsaves, hlen]
    simp

def ChunkRes.events : ChunkRes → List Ev
  | .ok _ _ _ evs => evs
  | .fail _ evs => evs

def PageRes.events : PageRes → List Ev
  | .ok _ _ evs => evs
  | .fail _ evs => evs

set_option maxRecDepth 4096 in
/-- Every provider call of the inner loop carries a prompt built from a
chunk of the page that is neither whitespace-only nor recognised image
markup. -/
theorem chunkLoop_call_prompts (oracle : Nat → ChunkCallResult) (tl : String) :
    ∀ chunks ctx translated k p,
      Ev.call p ∈ (chunkLoop oracle tl chunks ctx translated k).events →
      ∃ chunk ctx2, chunk ∈ chunks ∧ (jsTrim chunk).isEmpty = false ∧
        isImageMarkdownTag chunk = false ∧ p = buildPrompt tl ctx2 chunk := by
  intro chunks
  induction chunks with
  | nil =>
    intro ctx translated k p hmem
    simp only [chunkLoop, ChunkRes.events] at hmem
    cases hmem
  | cons chunk rest ih =>
    intro ctx tr k p hmem
    simp only [chunkLoop] at hmem
    split at hmem
    · obtain ⟨c2, x2, hc2, h1, h2, h3⟩ := ih _ _ _ _ hmem
      exact ⟨c2, x2, List.mem_cons_of_mem _ hc2, h1, h2, h3⟩
    · split at hmem
      · obtain ⟨c2, x2, hc2, h1, h2, h3⟩ := ih _ _ _ _ hmem
        exact ⟨c2, x2, List.mem_cons_of_mem _ hc2, h1, h2, h3⟩
      · rename_i htrim himg
        split at hmem
        · simp only [ChunkRes.events] at hmem
          have h := List.mem_singleton.mp hmem
          injection h with h0
          subst h0
          exact ⟨chunk, ctx, List.mem_cons_self _ _,
            by simpa using htrim, by simpa using himg, rfl⟩
        · split at hmem
          · rename_i t2 c2 k2 evs2 heq
            simp only [ChunkRes.events] at hmem
            rcases List.mem_cons.mp hmem with h | h2
            · injection h with h0
              subst h0
              exact ⟨chunk, ctx, List.mem_cons_self _ _,
                by simpa using htrim, by simpa using himg, rfl⟩
            · have := ih _ _ _ p (by rw [heq]; exact h2)
              obtain ⟨c3, x3, hc3, h1, h2, h3⟩ := this
              exact ⟨c3, x3, List.mem_cons_of_mem _ hc3, h1, h2, h3⟩
          · rename_i e2 evs2 heq
            simp only [ChunkRes.events] at hmem
            rcases List.mem_cons.mp hmem with h | h2
            · injection h with h0
              subst h0
              exact ⟨chunk, ctx, List.mem_cons_self _ _,
                by simpa using htrim, by simpa using himg, rfl⟩
            · have := ih _ _ _ p (by rw [heq]; exact h2)
              obtain ⟨c3, x3, hc3, h1, h2, h3⟩ := this
              exact ⟨c3, x3, List.mem_cons_of_mem _ hc3, h1, h2, h3⟩

/-- Every provider call of the page loop comes from a non-image,
non-blank chunk of one of the pages. -/
theorem pageLoop_call_prompts (oracle : Nat → ChunkCallResult) (tl folder : String)
    (total : Nat) :
    ∀ pages i prevCtx done k p,
      Ev.call p ∈ (pageLoop oracle tl folder total pages i prevCtx done k).events →
      ∃ page chunk ctx2, page ∈ pages ∧ chunk ∈ splitContentByImageMarkdown page ∧
        (jsTrim chunk).isEmpty = false ∧ isImageMarkdownTag chunk = false ∧
        p = buildPrompt tl ctx2 chunk := by
  intro pages
  induction pages with
  | nil =>
    intro i prevCtx done k p hmem
    simp only [pageLoop, PageRes.events] at hmem
    cases hmem
  | cons page rest ih =>
    intro i prevCtx done k p hmem
    simp only [pageLoop] at hmem
    split at hmem
    · rename_i e2 evs2 heq
      simp only [PageRes.events] at hmem
      have := chunkLoop_call_prompts oracle tl _ _ _ _ p (by rw [heq]; exact hmem)
      obtain ⟨c2, x2, hc2, h1, h2, h3⟩ := this
      exact ⟨page, c2, x2, List.mem_cons_self _ _, hc2, h1, h2, h3⟩
    · rename_i t2 c2 k2 evs2 heq
      split at hmem
      · rename_i d3 k3 evs3 heq3
        simp only [PageRes.events] at hmem
        rcases List.mem_append.mp hmem with h | h2
        · have := chunkLoop_call_prompts oracle tl _ _ _ _ p (by rw [heq]; exact h)
          obtain ⟨c3, x3, hc3, h1b, h2b, h3b⟩ := this
          exact ⟨page, c3, x3, List.mem_cons_self _ _, hc3, h1b, h2b, h3b⟩
        · rcases List.mem_cons.mp h2 with h | h3
          · cases h
          · have := ih _ _ _ _ p (by rw [heq3]; exact h3)
            obtain ⟨pg, c3, x3, hpg, hc3, h1b, h2b, h3b⟩ := this
            exact ⟨pg, c3, x3, List.mem_cons_of_mem _ hpg, hc3, h1b, h2b, h3b⟩
      · rename_i e3 evs3 heq3
        simp only [PageRes.events] at hmem
        rcases List.mem_append.mp hmem with h | h2
        · have := chunkLoop_call_prompts oracle tl _ _ _ _ p (by rw [heq]; exact h)
          obtain ⟨c3, x3, hc3, h1b, h2b, h3b⟩ := this
          exact ⟨page, c3, x3, List.mem_cons_self _ _, hc3, h1b, h2b, h3b⟩
        · rcases List.mem_cons.mp h2 with h | h3
          · cases h
          · have := ih _ _ _ _ p (by rw [heq3]; exact h3)
            obtain ⟨pg, c3, x3, hpg, hc3, h1b, h2b, h3b⟩ := this
            exact ⟨pg, c3, x3, List.mem_cons_of_mem _ hpg, hc3, h1b, h2b, h3b⟩

/-- Every provider call of a stage run is issued for a chunk that is
neither whitespace-only nor recognised image markup: image chunks are
never sent to the completion call. -/
theorem translateFaithful_call_prompts (oracle : Nat → ChunkCallResult)
    (tl content folder : String) (p : String)
    (hmem : Ev.call p ∈ (translateFaithful oracle tl content folder).events) :
    ∃ page chunk ctx2, page ∈ splitByPages content ∧
      chunk ∈ splitContentByImageMarkdown page ∧
      (jsTrim chunk).isEmpty = false ∧ isImageMarkdownTag chunk = false ∧
      p = buildPrompt tl ctx2 chunk := by
  cases hp : pageLoop oracle tl folder (splitByPages content).length
      (splitByPages content) 0 "(First page)" [] 0 with
  | ok done k evs =>
    simp only [translateFaithful, hp] at hmem
    rcases List.mem_cons.mp hmem with h | h2
    · cases h
    · rcases List.mem_append.mp h2 with h | h3
      · exact pageLoop_call_prompts oracle tl folder _ _ _ _ _ _ p (by rw [hp]; exact h)
      · rcases List.mem_singleton.mp h3 with h
        cases h
  | fail e evs =>
    simp only [translateFaithful, hp] at hmem
    rcases List.mem_cons.mp hmem with h | h2
    · cases h
    · exact pageLoop_call_prompts oracle tl folder _ _ _ _ _ _ p (by rw [hp]; exact h2)

/-- Appending the next unit's output strictly extends the joined
translation body. -/
theorem joinSep_take_grows (ts : List String) (j : Nat)
    (h : j + 1 < ts.length) :
    ∃ t : String, t ≠ "" ∧
      joinSep "\n\n" (ts.take (j + 1)) ++ t = joinSep "\n\n" (ts.take (j + 2)) := by
  have hgl : ts[j + 1]? = some ts[j + 1] := List.getElem?_eq_getElem h
  have htake : ts.take (j + 2) = ts.take (j + 1) ++ [ts[j + 1]] := by
    rw [List.take_succ, hgl]
    rfl
  have hne : ts.take (j + 1) ≠ [] := by
    have hlen2 : (ts.take (j + 1)).length = j + 1 := by
      rw [List.length_take]
      omega
    intro hnil
    rw [hnil] at hlen2
    simp at hlen2
  refine ⟨"\n\n" ++ ts[j + 1], ?_, ?_⟩
  · intro hemp
    have := congrArg String.data hemp
    simp [String.data_append] at this
  · rw [htake, joinSep_append_singleton _ _ _ hne, String.append_assoc]

end PaperProcessor.Translator

namespace PaperProcessor.Pricing

/-!
## `src/utils/pricing-table.ts`

JavaScript numbers are modelled as exact rationals (`ℚ`); the pricing
arithmetic involves only short sums and products of decimal constants,
and the claims are about the arithmetic structure, not IEEE rounding.
-/

/-- `TokenUsage` (`src/types/usage.ts`); `totalTokens`/`cachedTokens`
play no role in any computation the claims touch. -/
structure TokenUsage where
  promptTokens : ℚ
  completionTokens : ℚ
  totalTokens : ℚ
deriving DecidableEq

structure ModelPricing where
  inputPer1M : ℚ
  outputPer1M : ℚ
deriving DecidableEq

/-- `MODEL_PRICING` (a JS object literal: an insertion-ordered record
with unique keys, modelled as an association list). -/
def MODEL_PRICING : List (String × ModelPricing) :=
  [("mistral-ocr-latest", ⟨1.00, 1.00⟩),
   ("grok-4.1-fast-non-reasoning", ⟨0.10, 0.30⟩),
   ("grok-4.1-fast", ⟨0.20, 0.50⟩),
   ("grok-4.1", ⟨2.00, 10.00⟩),
   ("gpt-5.2", ⟨5.00, 15.00⟩),
   ("gpt-5.2-mini", ⟨0.15, 0.60⟩),
   ("gpt-4o", ⟨2.50, 10.00⟩),
   ("claude-4.5-opus", ⟨15.00, 75.00⟩),
   ("claude-4.5-sonnet", ⟨3.00, 15.00⟩),
   ("claude-4.5-haiku", ⟨1.00, 5.00⟩),
   ("gemini-3.0-pro", ⟨1.25, 5.00⟩),
   ("gemini-3.0-flash", ⟨0.50, 2.00⟩),
   ("gemini-2.5-flash-lite", ⟨0.10, 0.40⟩),
   ("deepseek-r1", ⟨0.55, 2.19⟩),
   ("deepseek-v3", ⟨0.28, 0.42⟩),
   ("llama-3.3-70b-versatile", ⟨0.59, 0.79⟩),
   ("deepseek-r1-distill-llama-70b", ⟨0.75, 0.99⟩)]

/-- JS `model.startsWith(prefix)`. -/
def startsWithJS (s pre : String) : Bool :=
  pre.data.isPrefixOf s.data

/-- JS `model.includes(sub)` on code-point lists. -/
def isInfixL (sub : List Char) : List Char → Bool
  | [] => sub.isEmpty
  | c :: cs => sub.isPrefixOf (c :: cs) || isInfixL sub cs

def includesJS (s sub : String) : Bool :=
  isInfixL sub.data s.data

/-- `getProviderFromModel` of `pricing-table.ts`. -/
def getProviderFromModel (model : String) : String :=
  if startsWithJS model "grok-" then "xAI"
  else if startsWithJS model "gpt-" then "OpenAI"
  else if startsWithJS model "claude-" then "Anthropic"
  else if startsWithJS model "gemini-" then "Google"
  else if startsWithJS model "deepseek-" && !(includesJS model "distill") then "DeepSeek"
  else if startsWithJS model "llama-" || includesJS model "distill" then "Groq"
  else if startsWithJS model "mistral-" then "Mistral"
  else "Unknown"

structure UsageCost where
  inputCost : ℚ
  outputCost : ℚ
  totalCost : ℚ
deriving DecidableEq

/-- `calculateCost` of `pricing-table.ts`: table lookup with the
conservative default `$1 / $2 per 1M tokens` for unknown models. -/
def calculateCost (model : String) (usage : TokenUsage) : UsageCost :=
  match MODEL_PRICING.lookup model with
  | none =>
    { inputCost := usage.promptTokens / 1000000 * 1.0,
      outputCost := usage.completionTokens / 1000000 * 2.0,
      totalCost := usage.promptTokens / 1000000 * 1.0 +
        usage.completionTokens / 1000000 * 2.0 }
  | some pricing =>
    let inputCost := usage.promptTokens / 1000000 * pricing.inputPer1M
    let outputCost := usage.completionTokens / 1000000 * pricing.outputPer1M
    { inputCost := inputCost, outputCost := outputCost,
      totalCost := inputCost + outputCost }

/-- The API-key fields of `PaperProcessorSettings` consulted by
`checkApiKey` (a missing key is the empty string, which is falsy). -/
structure ApiKeys where
  grokApiKey : String
  openaiApiKey : String
  anthropicApiKey : String
  geminiApiKey : String
  deepseekApiKey : String
  groqApiKey : String

/-- `checkApiKey` of `BlogGeneratorService` (the `TranslatorService` copy
is identical). -/
def checkApiKey (s : ApiKeys) (model : String) : Option String :=
  if startsWithJS model "grok-" && s.grokApiKey.isEmpty then
    some "xAI Grok API key not configured. Please set it in plugin settings."
  else if startsWithJS model "gpt-" && s.openaiApiKey.isEmpty then
    some "OpenAI API key not configured. Please set it in plugin settings."
  else if startsWithJS model "claude-" && s.anthropicApiKey.isEmpty then
    some "Anthropic API key not configured. Please set it in plugin settings."
  else if startsWithJS model "gemini-" && s.geminiApiKey.isEmpty then
    some "Gemini API key not configured. Please set it in plugin settings."
  else if startsWithJS model "deepseek-" && !(includesJS model "distill") &&
      s.deepseekApiKey.isEmpty then
    some "DeepSeek API key not configured. Please set it in plugin settings."
  else if (startsWithJS model "llama-" || includesJS model "distill") &&
      s.groqApiKey.isEmpty then
    some "Groq API key not configured. Please set it in plugin settings."
  else none

theorem prefix_head_eq {a b : Char} {p q l : List Char}
    (hp : (a :: p).isPrefixOf l = true) (hq : (b :: q).isPrefixOf l = true) :
    a = b := by
  cases l with
  | nil => simp [List.isPrefixOf] at hp
  | cons c cs =>
    simp [List.isPrefixOf] at hp hq
    rw [hp.1, hq.1]

end PaperProcessor.Pricing

namespace PaperProcessor.UsageTracker

open PaperProcessor.Pricing

/-!
## `UsageTrackerService` (usage-tracker module)

`recordUsage` is a pure state transition on `SessionUsageStats`.  The
JS `byProvider`/`byFeature` records are insertion-ordered objects with
unique keys, modelled as association lists updated in place (first
occurrence) or appended.  `notifyChange` invokes observer callbacks with
a snapshot and swallows their exceptions; it never alters the stats, so
it does not appear in the state transition.  `sessionStartTime`
(`Date.now()`) carries no information the claims touch.
-/

/-- The `feature` union type `"ocr" | "translation" | "blog"`. -/
inductive Feature where
  | ocr
  | translation
  | blog
deriving DecidableEq

/-- `ProviderStats` and `FeatureStats` (`src/types/usage.ts`) are the
same shape `{ input, output, cost, calls }`. -/
structure AggStats where
  input : ℚ
  output : ℚ
  cost : ℚ
  calls : Nat
deriving DecidableEq

structure SessionUsageStats where
  byProvider : List (String × AggStats)
  byFeature : List (Feature × AggStats)
  totalInputTokens : ℚ
  totalOutputTokens : ℚ
  totalCost : ℚ
  totalCalls : Nat

/-- `createEmptyStats`. -/
def createEmptyStats : SessionUsageStats :=
  { byProvider := [], byFeature := [], totalInputTokens := 0,
    totalOutputTokens := 0, totalCost := 0, totalCalls := 0 }

/-- `if (!bucket[key]) bucket[key] = {0,0,0,0}; bucket[key].input += ...`:
initialise-if-absent, then increment in place. -/
def bumpStats {K : Type} [DecidableEq K] :
    List (K × AggStats) → K → ℚ → ℚ → ℚ → List (K × AggStats)
  | [], key, du, dout, dc => [(key, ⟨du, dout, dc, 1⟩)]
  | (k, st) :: rest, key, du, dout, dc =>
    if k = key then
      (k, ⟨st.input + du, st.output + dout, st.cost + dc, st.calls + 1⟩) :: rest
    else (k, st) :: bumpStats rest key du dout dc

/-- The parameters of one `recordUsage` call. -/
structure RecordParams where
  provider : String
  model : String
  feature : Feature
  usage : TokenUsage

/-- `recordUsage` of `UsageTrackerService`: compute the cost, bump the
provider bucket, the feature bucket and the grand totals, and return the
cost. -/
def recordUsage (stats : SessionUsageStats) (params : RecordParams) :
    UsageCost × SessionUsageStats :=
  let cost := calculateCost params.model params.usage
  (cost,
   { byProvider := bumpStats stats.byProvider params.provider
       params.usage.promptTokens params.usage.completionTokens cost.totalCost,
     byFeature := bumpStats stats.byFeature params.feature
       params.usage.promptTokens params.usage.completionTokens cost.totalCost,
     totalInputTokens := stats.totalInputTokens + params.usage.promptTokens,
     totalOutputTokens := stats.totalOutputTokens + params.usage.completionTokens,
     totalCost := stats.totalCost + cost.totalCost,
     totalCalls := stats.totalCalls + 1 })

/-- The ledger after a sequence of `recordUsage` calls, starting from the
empty session. -/
def runLedger (rs : List RecordParams) : SessionUsageStats :=
  rs.foldl (fun s r => (recordUsage s r).2) createEmptyStats

def sumInput {K : Type} (l : List (K × AggStats)) : ℚ :=
  (l.map (fun e => e.2.input)).sum

def sumOutput {K : Type} (l : List (K × AggStats)) : ℚ :=
  (l.map (fun e => e.2.output)).sum

def sumCost {K : Type} (l : List (K × AggStats)) : ℚ :=
  (l.map (fun e => e.2.cost)).sum

def sumCalls {K : Type} (l : List (K × AggStats)) : Nat :=
  (l.map (fun e => e.2.calls)).sum

theorem bumpStats_sumInput {K : Type} [DecidableEq K] :
    ∀ (l : List (K × AggStats)) key du dout dc,
      sumInput (bumpStats l key du dout dc) = sumInput l + du := by
  intro l
  induction l with
  | nil => intro key du dout dc; simp [bumpStats, sumInput]
  | cons e rest ih =>
    intro key du dout dc
    obtain ⟨k, st⟩ := e
    simp only [bumpStats]
    split
    · simp [sumInput]
      ring
    · simp only [sumInput, List.map_cons, List.sum_cons] at ih ⊢
      rw [ih]
      ring

theorem bumpStats_sumOutput {K : Type} [DecidableEq K] :
    ∀ (l : List (K × AggStats)) key du dout dc,
      sumOutput (bumpStats l key du dout dc) = sumOutput l + dout := by
  intro l
  induction l with
  | nil => intro key du dout dc; simp [bumpStats, sumOutput]
  | cons e rest ih =>
    intro key du dout dc
    obtain ⟨k, st⟩ := e
    simp only [bumpStats]
    split
    · simp [sumOutput]
      ring
    · simp only [sumOutput, List.map_cons, List.sum_cons] at ih ⊢
      rw [ih]
      ring

theorem bumpStats_sumCost {K : Type} [DecidableEq K] :
    ∀ (l : List (K × AggStats)) key du dout dc,
      sumCost (bumpStats l key du dout dc) = sumCost l + dc := by
  intro l
  induction l with
  | nil => intro key du dout dc; simp [bumpStats, sumCost]
  | cons e rest ih =>
    intro key du dout dc
    obtain ⟨k, st⟩ := e
    simp only [bumpStats]
    split
    · simp [sumCost]
      ring
    · simp only [sumCost, List.map_cons, List.sum_cons] at ih ⊢
      rw [ih]
      ring

theorem bumpStats_sumCalls {K : Type} [DecidableEq K] :
    ∀ (l : List (K × AggStats)) key du dout dc,
      sumCalls (bumpStats l key du dout dc) = sumCalls l + 1 := by
  intro l
  induction l with
  | nil => intro key du dout dc; simp [bumpStats, sumCalls]
  | cons e rest ih =>
    intro key du dout dc
    obtain ⟨k, st⟩ := e
    simp only [bumpStats]
    split
    · simp [sumCalls]
      omega
    · simp only [sumCalls, List.map_cons, List.sum_cons] at ih ⊢
      rw [ih]
      omega

/-- The conservation invariant: per-provider and per-feature aggregates
sum to the grand totals. -/
def LedgerInv (st : SessionUsageStats) : Prop :=
  sumInput st.byProvider = st.totalInputTokens ∧
  sumOutput st.byProvider = st.totalOutputTokens ∧
  sumCost st.byProvider = st.totalCost ∧
  sumCalls st.byProvider = st.totalCalls ∧
  sumInput st.byFeature = st.totalInputTokens ∧
  sumOutput st.byFeature = st.totalOutputTokens ∧
  sumCost st.byFeature = st.totalCost ∧
  sumCalls st.byFeature = st.totalCalls

theorem recordUsage_preserves_inv (st : SessionUsageStats) (r : RecordParams)
    (h : LedgerInv st) : LedgerInv (recordUsage st r).2 := by
  obtain ⟨h1, h2, h3, h4, h5, h6, h7, h8⟩ := h
  refine ⟨?_, ?_, ?_, ?_, ?_, ?_, ?_, ?_⟩ <;>
    simp only [recordUsage, bumpStats_sumInput, bumpStats_sumOutput,
      bumpStats_sumCost, bumpStats_sumCalls, h1, h2, h3, h4, h5, h6, h7, h8]

theorem runLedger_inv_aux :
    ∀ (rs : List RecordParams) (st : SessionUsageStats), LedgerInv st →
      LedgerInv (rs.foldl (fun s r => (recordUsage s r).2) st) := by
  intro rs
  induction rs with
  | nil => intro st h; exact h
  | cons r rest ih =>
    intro st h
    exact ih _ (recordUsage_preserves_inv st r h)

theorem runLedger_totals_aux :
    ∀ (rs : List RecordParams) (st : SessionUsageStats),
      (rs.foldl (fun s r => (recordUsage s r).2) st).totalInputTokens =
        st.totalInputTokens + (rs.map (fun r => r.usage.promptTokens)).sum ∧
      (rs.foldl (fun s r => (recordUsage s r).2) st).totalOutputTokens =
        st.totalOutputTokens + (rs.map (fun r => r.usage.completionTokens)).sum ∧
      (rs.foldl (fun s r => (recordUsage s r).2) st).totalCost =
        st.totalCost + (rs.map (fun r => (calculateCost r.model r.usage).totalCost)).sum ∧
      (rs.foldl (fun s r => (recordUsage s r).2) st).totalCalls =
        st.totalCalls + rs.length := by
  intro rs
  induction rs with
  | nil => intro st; simp
  | cons r rest ih =>
    intro st
    obtain ⟨i1, i2, i3, i4⟩ := ih (recordUsage st r).2
    refine ⟨?_, ?_, ?_, ?_⟩
    · simp only [List.foldl_cons]
      rw [i1]
      simp only [recordUsage, List.map_cons, List.sum_cons]
      ring
    · simp only [List.foldl_cons]
      rw [i2]
      simp only [recordUsage, List.map_cons, List.sum_cons]
      ring
    · simp only [List.foldl_cons]
      rw [i3]
      simp only [recordUsage, List.map_cons, List.sum_cons]
      ring
    · simp only [List.foldl_cons]
      rw [i4]
      simp only [recordUsage, List.length_cons]
      omega

end PaperProcessor.UsageTracker

namespace PaperProcessor.ApiClient

/-!
## `src/utils/api-client.ts`

A provider call's observable input is the transport outcome of its one
HTTP request: a network-level failure, or a response with a status, a
body text, and that body's JSON parse (or `none` when the body is not
JSON — Obsidian's `response.json` getter throws in that case).  Inner
computations that can throw are `Except String`; the `try/catch` of each
client is the match that converts `Except.error` into the uniform
`{ success: false, error }` value.  Request construction (URL, headers,
body serialisation) does not influence the result shape and is not
modelled.
-/

inductive Json where
  | null
  | bool (b : Bool)
  | num (q : ℚ)
  | str (s : String)
  | arr (xs : List Json)
  | obj (fields : List (String × Json))

/-- JS truthiness of a JSON value. -/
def jsTruthy : Json → Bool
  | .null => false
  | .bool b => b
  | .num q => q != 0
  | .str s => !s.isEmpty
  | .arr _ => true
  | .obj _ => true

def Json.field : Json → String → Option Json
  | .obj fs, k => fs.lookup k
  | _, _ => none

def Json.idx : Json → Nat → Option Json
  | .arr xs, i => xs[i]?
  | _, _ => none

/-- The observable outcome of the single outbound HTTP request. -/
inductive TransportOutcome where
  | netError (msg : String)
  | response (status : Nat) (text : String) (json : Option Json)

/-- The three failure classes named by the spec: network failure, non-2xx
status, malformed (non-JSON) body. -/
def transportFailure : TransportOutcome → Bool
  | .netError _ => true
  | .response st _ json => !(200 ≤ st && st < 300) || json.isNone

structure HttpResponse where
  status : Nat
  text : String
  json : Option Json

/-- Obsidian's `requestUrl`: by default it throws on an error status;
with `throw: false` every response is returned. -/
def requestUrl (throwOnError : Bool) : TransportOutcome → Except String HttpResponse
  | .netError msg => .error msg
  | .response st tx js =>
    if throwOnError && 400 ≤ st then
      .error ("Request failed, status " ++ toString st)
    else .ok ⟨st, tx, js⟩

/-- `ApiResponse<T>`: `{ success, data?, error?, usage? }` (the generic
payload is kept as JSON; usage mapping is irrelevant to the claims and
not modelled). -/
structure ApiResponse where
  success : Bool
  data : Option Json
  error : Option String

/-- The body of `ApiClient.post` up to its `catch`: `requestUrl` with
`throw: false`, then the 2xx check; `response.json` throws on a
malformed body. -/
def postInner (o : TransportOutcome) : Except String ApiResponse :=
  match requestUrl false o with
  | .error e => .error e
  | .ok resp =>
    if 200 ≤ resp.status && resp.status < 300 then
      match resp.json with
      | some j => .ok { success := true, data := some j, error := none }
      | none => .error "SyntaxError: Unexpected token in JSON"
    else
      .ok { success := false, data := none,
            error := some ("HTTP " ++ toString resp.status ++ ": " ++ resp.text) }

/-- `ApiClient.post`: the `try/catch` wrapper converting any thrown error
into `{ success: false, error }`. -/
def post (o : TransportOutcome) : ApiResponse :=
  match postInner o with
  | .ok r => r
  | .error e => { success := false, data := none, error := some e }

/-- `OpenAICompatibleClient.chatCompletion`: `post`, then extraction of
`choices[0].message.content` with JS optional chaining and truthiness. -/
def chatCompletion (o : TransportOutcome) : ApiResponse :=
  let response := post o
  let dataTruthy :=
    match response.data with
    | some j => jsTruthy j
    | none => false
  if response.success && dataTruthy then
    let content := (response.data.getD .null).field "choices" |>.bind (fun c => c.idx 0)
      |>.bind (fun c => c.field "message") |>.bind (fun c => c.field "content")
    match content with
    | some c =>
      if jsTruthy c then { success := true, data := some c, error := none }
      else { success := false, data := none, error := some "No content in response" }
    | none => { success := false, data := none, error := some "No content in response" }
  else
    { success := false, data := none, error := response.error }

/-- `GeminiClient.generateContent`: one `requestUrl` call in default
(throwing) mode inside `try/catch`, the 2xx check, `response.json`
(throws on a malformed body, caught), then extraction of
`candidates[0].content.parts[0].text`. -/
def generateContent (o : TransportOutcome) : ApiResponse :=
  let inner : Except String ApiResponse :=
    match requestUrl true o with
    | .error e => .error e
    | .ok resp =>
      if 200 ≤ resp.status && resp.status < 300 then
        match resp.json with
        | none => .error "SyntaxError: Unexpected token in JSON"
        | some data =>
          let text := data.field "candidates" |>.bind (fun c => c.idx 0)
            |>.bind (fun c => c.field "content") |>.bind (fun c => c.field "parts")
            |>.bind (fun c => c.idx 0) |>.bind (fun c => c.field "text")
          match text with
          | some t =>
            if jsTruthy t then .ok { success := true, data := some t, error := none }
            else .ok { success := false, data := none, error := some "No text in response" }
          | none => .ok { success := false, data := none, error := some "No text in response" }
      else
        .ok { success := false, data := none,
              error := some ("HTTP " ++ toString resp.status) }
  match inner with
  | .ok r => r
  | .error e => { success := false, data := none, error := some e }

theorem post_failure (o : TransportOutcome) (h : transportFailure o = true) :
    (post o).success = false ∧ (post o).error ≠ none := by
  cases o with
  | netError msg => simp [post, postInner, requestUrl]
  | response st tx js =>
    simp only [transportFailure, Bool.or_eq_true, Bool.not_eq_true'] at h
    cases js with
    | none =>
      by_cases h2 : (200 ≤ st && st < 300) = true
      · simp [post, postInner, requestUrl, h2]
      · simp [post, postInner, requestUrl, h2]
    | some j =>
      rcases h with h | h
      · simp [post, postInner, requestUrl, h]
      · simp at h

theorem chatCompletion_failure (o : TransportOutcome) (h : transportFailure o = true) :
    (chatCompletion o).success = false ∧ (chatCompletion o).error ≠ none := by
  have hp := post_failure o h
  simp only [chatCompletion]
  rw [if_neg (by simp [hp.1])]
  exact ⟨rfl, hp.2⟩

theorem generateContent_failure (o : TransportOutcome)
    (h : transportFailure o = true) :
    (generateContent o).success = false ∧ (generateContent o).error ≠ none := by
  cases o with
  | netError msg => simp [generateContent, requestUrl]
  | response st tx js =>
    simp only [transportFailure, Bool.or_eq_true, Bool.not_eq_true'] at h
    by_cases h4 : 400 ≤ st
    · simp [generateContent, requestUrl, h4]
    · have hok : requestUrl true (.response st tx js) = .ok ⟨st, tx, js⟩ := by
        simp [requestUrl, h4]
      cases js with
      | none =>
        by_cases h2 : (200 ≤ st && st < 300) = true
        · simp [generateContent, hok, h2]
        · simp [generateContent, hok, h2]
      | some j =>
        rcases h with h | h
        · simp [generateContent, hok, h]
        · simp at h

end PaperProcessor.ApiClient

namespace PaperProcessor.BlogGenerator

/-!
## Image triage and deep analysis (`BlogGeneratorService.generate`,
steps 4-5, and `triageImages`)

`triageImages` issues one classification call, parses its JSON (parse
failures are caught), applies the parsed `{filename, tier, section,
reason}` items to the loaded images by name, then defaults every image
without a (truthy) tier to tier 2 and without a section to `"방법"`.
`generate` then deep-analyses exactly the images whose tier is not 3:
`const imagesToAnalyze = images.filter(i => i.tier !== 3)`, one
`analyzeImage` provider call per element (a failed analysis is caught
and replaced by a placeholder, but its call was still issued).
-/

/-- `ImageAsset` (tier/section/reason/analysis start `undefined`). -/
structure ImageAsset where
  name : String
  relativePath : String
  mimeType : String
  data : String
  tier : Option ℚ
  sec : Option String
  reason : Option String
  analysis : Option String
deriving DecidableEq

/-- One element of the parsed triage JSON array. -/
structure TriageItem where
  filename : String
  tier : ℚ
  reason : String
  sec : String
deriving DecidableEq

/-- `const img = images.find(i => i.name === item.filename); if (img) {
img.tier = item.tier; img.section = item.section; img.reason =
item.reason; }` — update the first image with the matching name. -/
def applyItem : List ImageAsset → TriageItem → List ImageAsset
  | [], _ => []
  | img :: rest, item =>
    if img.name = item.filename then
      { img with
        tier := some item.tier
        sec := some item.sec
        reason := some item.reason } :: rest
    else img :: applyItem rest item

/-- `if (!img.tier) img.tier = 2` (JS truthiness: an absent or zero
tier is falsy). -/
def defaultTier (img : ImageAsset) : ImageAsset :=
  match img.tier with
  | none => { img with tier := some 2 }
  | some q => if q = 0 then { img with tier := some 2 } else img

/-- `if (!img.section) img.section = "방법"` (an absent or empty section
is falsy). -/
def defaultSec (img : ImageAsset) : ImageAsset :=
  match img.sec with
  | none => { img with sec := some "방법" }
  | some s => if s.isEmpty then { img with sec := some "방법" } else img

/-- `if (!img.tier) img.tier = 2; if (!img.section) img.section = "방법"`. -/
def defaultTriage (img : ImageAsset) : ImageAsset :=
  defaultSec (defaultTier img)

/-- `triageImages` after its provider call: apply the parsed items when
parsing succeeded (`none` models both a failed call and a JSON parse
failure, which are caught and skipped), then apply the defaults. -/
def triageImages (parsed : Option (List TriageItem)) (images : List ImageAsset) :
    List ImageAsset :=
  let applied :=
    match parsed with
    | some items => items.foldl applyItem images
    | none => images
  applied.map defaultTriage

/-- Steps 4-5 of `generate`: the images receiving a deep-analysis call
are exactly `images.filter(i => i.tier !== 3)` after triage, one call
each, in order. -/
def deepAnalysisCalls (parsed : Option (List TriageItem))
    (images : List ImageAsset) : List ImageAsset :=
  (triageImages parsed images).filter (fun i => i.tier ≠ some 3)

theorem defaultSec_tier (img : ImageAsset) : (defaultSec img).tier = img.tier := by
  unfold defaultSec
  rcases img.sec with _ | s
  · rfl
  · dsimp only
    split <;> rfl

theorem defaultTier_tier_ne (img : ImageAsset) : (defaultTier img).tier ≠ none := by
  unfold defaultTier
  rcases h : img.tier with _ | q
  · simp
  · dsimp only
    split
    · simp
    · simp [h]

theorem defaultTriage_tier_ne (img : ImageAsset) :
    (defaultTriage img).tier ≠ none := by
  rw [defaultTriage, defaultSec_tier]
  exact defaultTier_tier_ne img

/-!
## The blog checkpoint loop (`generate`, steps 7-8)

The sequential section generation writes `blog.md` after every section:
an initial placeholder, then per section `i` the frontmatter header, the
joined sections generated so far and — while sections remain — a
trailing progress note listing them, then the final clean save.  The
section texts themselves come from provider calls; as in the translator
model they are supplied by an oracle `gen` giving the text pushed onto
`generatedSections` at iteration `i` (a failed generation is caught and
a placeholder pushed, so every iteration pushes exactly one entry).
-/

open PaperProcessor.Translator in
/-- `` `${frontmatter}\n\n# ${blogTitle}: 논문 해설\n\n` `` — the part of
every checkpoint before the joined sections. -/
def blogHeader (frontmatter blogTitle : String) : String :=
  frontmatter ++ "\n\n# " ++ blogTitle ++ ": 논문 해설\n\n"

open PaperProcessor.Translator in
/-- `remainingSections.length > 0 ? `\n\n---\n\n_생성 중: ...` : ""` with
`remainingSections = SECTION_ORDER.slice(i + 1)`. -/
def progressNote (order : List String) (i : Nat) : String :=
  let remaining := order.drop (i + 1)
  if remaining.length > 0 then
    "\n\n---\n\n_생성 중: " ++ joinSep ", " remaining ++ " 남음..._"
  else ""

/-- The `initialContent` placeholder written before the first section. -/
def blogInitial (frontmatter blogTitle : String) (order : List String) : String :=
  frontmatter ++ "\n\n# " ++ blogTitle ++ ": 논문 해설\n\n_블로그 생성 중... (" ++
    toString order.length ++ "개 섹션)_\n\n---\n\n"

open PaperProcessor.Translator in
/-- `for (let i = 0; i < SECTION_ORDER.length; i++) { ... }`: push the
generated section, write the checkpoint (header, joined sections so far,
progress note), continue.  The first argument counts the remaining
iterations (`order.length - i`); the result is the final
`generatedSections` and the ordered writes. -/
def blogSaveLoop (path header : String) (gen : Nat → String) (order : List String) :
    Nat → Nat → List String → List String × List Ev
  | 0, _, done => (done, [])
  | n + 1, i, done =>
    let done2 := done ++ [gen i]
    let r := blogSaveLoop path header gen order n (i + 1) done2
    (r.1, Ev.save path (header ++ joinSep "\n\n" done2 ++ progressNote order i) :: r.2)

open PaperProcessor.Translator in
/-- The `blog.md` writes of `generate`, steps 7-8: the initial
placeholder, the per-section checkpoints, and the final clean save of
the joined sections without a progress note. -/
def blogGenerateSaves (folder frontmatter blogTitle : String) (gen : Nat → String)
    (order : List String) : List Ev :=
  let path := folder ++ "/blog.md"
  let header := blogHeader frontmatter blogTitle
  let r := blogSaveLoop path header gen order order.length 0 []
  Ev.save path (blogInitial frontmatter blogTitle order) ::
    (r.2 ++ [Ev.save path (header ++ joinSep "\n\n" r.1)])

open PaperProcessor.Translator in
/-- Closed form of the blog checkpoint loop: the sections are
`gen 0 .. gen (n-1)` and checkpoint `j` joins the first `j + 1` of
them. -/
theorem blogSaveLoop_saves (path header : String) (gen : Nat → String)
    (order : List String) :
    ∀ n i done, i + n = order.length → done = (List.range i).map gen →
      (blogSaveLoop path header gen order n i done).1 =
        (List.range order.length).map gen ∧
      (blogSaveLoop path header gen order n i done).2 =
        (List.range' i n).map fun j =>
          Ev.save path (header ++
            joinSep "\n\n" (((List.range order.length).map gen).take (j + 1)) ++
            progressNote order j) := by
  intro n
  induction n with
  | zero =>
    intro i done hi hdone
    subst hdone
    have hiL : i = order.length := by omega
    subst hiL
    exact ⟨rfl, rfl⟩
  | succ n ih =>
    intro i done hi hdone
    have hdone2 : done ++ [gen i] = (List.range (i + 1)).map gen := by
      rw [hdone, List.range_succ]
      simp
    obtain ⟨ih1, ih2⟩ := ih (i + 1) (done ++ [gen i]) (by omega) hdone2
    constructor
    · simp only [blogSaveLoop]
      exact ih1
    · simp only [blogSaveLoop]
      rw [show List.range' i (n + 1) = i :: List.range' (i + 1) n from rfl]
      simp only [List.map_cons]
      have htake : ((List.range order.length).map gen).take (i + 1) =
          (List.range (i + 1)).map gen := by
        rw [← List.map_take, List.take_range, Nat.min_eq_left (by omega)]
      rw [ih2, htake, hdone2]

end PaperProcessor.BlogGenerator

namespace PaperProcessor.Claims

/-!
## The claims

Each claim of the specification is settled by one theorem below, stated
over the embedding above.  Concrete oracles stand in for the provider:
`alwaysOk` answers every call, `failSecond` fails the second call.
-/

open PaperProcessor PaperProcessor.Translator PaperProcessor.Pricing
open PaperProcessor.UsageTracker PaperProcessor.ApiClient
open PaperProcessor.BlogGenerator

/-- The whole-document chunker: page splitting followed by the per-page
image-aware sub-split, exactly as `translateFaithful` composes them. -/
def chunkDocument (D : String) : List String :=
  ((splitByPages D).map splitContentByImageMarkdown).flatten

/-- An oracle whose every call succeeds with the nonempty output `Xk`. -/
def alwaysOk : Nat → ChunkCallResult := fun k =>
  { success := true, data := some ("X" ++ toString k), error := none }

/-- An oracle whose second call (call index 1) reports failure. -/
def failSecond : Nat → ChunkCallResult := fun k =>
  if k = 1 then { success := false, data := none, error := some "boom" }
  else { success := true, data := some ("X" ++ toString k), error := none }

/-- The single-image scenario document of the specification. -/
def scenarioDoc : String := "Before. ![fig](images/fig1.png) After."

/-- C1: for every input string, concatenating in order the chunks
produced by `splitContentByImageMarkdown` yields the input exactly
(code points, hence bytes, including all whitespace; no chunk is
dropped). -/
theorem claim_C1_subsplit_lossless (s : String) :
    String.join (splitContentByImageMarkdown s) = s :=
  splitContentByImageMarkdown_join s

/-- C1 witness: the losslessness theorem at a concrete document with an
image reference and surrounding whitespace. -/
theorem claim_C1_witness :
    String.join (splitContentByImageMarkdown "  a ![x](y.png) b  ") =
      "  a ![x](y.png) b  " :=
  claim_C1_subsplit_lossless "  a ![x](y.png) b  "

/-- C2 counterexample: whole-document chunking is NOT lossless.  The
page split drops the `<!-- Page n -->` markers themselves, so the
concatenation of the chunks of `"a<!-- Page 1 -->b"` is `"ab"`, not the
document; and a whitespace-only page is dropped by
`.filter((p) => p.trim())`, not passed through. -/
theorem claim_C2_counterexample :
    chunkDocument "a<!-- Page 1 -->b" = ["a", "b"] ∧
    String.join (chunkDocument "a<!-- Page 1 -->b") = "ab" ∧
    "ab" ≠ "a<!-- Page 1 -->b" ∧
    splitByPages "a<!-- Page 1 --> \t <!-- Page 2 -->b" = ["a", "b"] := by
  refine ⟨by decide, by decide, by decide, by decide⟩

/-- C2 (amended): a document with no page marker is passed through
whole by `splitByPages` (even an empty or whitespace-only one); and
whenever `splitByPages` returns the whole document as the single page —
which also covers the `parts.length > 1 ? parts : [content]` fallback,
e.g. `"<!-- Page 1 -->a"` whose split leaves one nonblank part — the
chunker's units concatenate to the document byte-for-byte. -/
theorem claim_C2_amended_reconstruction (D : String) :
    (findFrom matchPageMarker D.data 0 = none → splitByPages D = [D]) ∧
    (splitByPages D = [D] → String.join (chunkDocument D) = D) := by
  constructor
  · intro h
    have hpieces : splitPiecesAux matchPageMarker D.data (D.data.length + 1) 0
        = [D.data] := by
      simp only [splitPiecesAux, h, sliceL]
      simp [List.take_of_length_le]
    have hDs : List.asString D.data = D := rfl
    by_cases hD : (jsTrim D).isEmpty <;>
      · simp only [splitByPages]
        rw [hpieces]
        simp [hDs, hD]
  · intro h
    rw [chunkDocument, h]
    simp only [List.map_cons, List.map_nil, List.flatten_cons, List.flatten_nil,
      List.append_nil]
    exact splitContentByImageMarkdown_join D

/-- C2 witness: the amended reconstruction at a marker-free document
holding an image reference, and at a document whose single page marker
survives through the single-part fallback. -/
theorem claim_C2_witness :
    (splitByPages "x ![a](b) y" = ["x ![a](b) y"] ∧
      String.join (chunkDocument "x ![a](b) y") = "x ![a](b) y") ∧
    splitByPages "<!-- Page 1 -->a" = ["<!-- Page 1 -->a"] ∧
    String.join (chunkDocument "<!-- Page 1 -->a") = "<!-- Page 1 -->a" :=
  ⟨⟨(claim_C2_amended_reconstruction "x ![a](b) y").1 (by decide),
    (claim_C2_amended_reconstruction "x ![a](b) y").2
      ((claim_C2_amended_reconstruction "x ![a](b) y").1 (by decide))⟩,
   by decide,
   (claim_C2_amended_reconstruction "<!-- Page 1 -->a").2 (by decide)⟩

/-- C3: the intended behaviour, proved of the embedding in which the
`isImageMarkdownTag` markdown-image regex is repaired (its source
literal on `src/unnamed/part_007` line 380 opens three `(?:` groups but
closes two, an ECMAScript early SyntaxError, so the module as written
throws before any of this can run — the code-bug record): the scenario
document yields exactly the three chunks with the middle one recognised
as image markup; in every document each image span the scanner finds is
one whole chunk and every other chunk lies entirely outside it; every
provider call of a scenario stage run is built from one of the two text
chunks, never the image chunk; and the reassembled translation keeps
the image reference verbatim in position. -/
theorem claim_C3_image_atomicity :
    splitContentByImageMarkdown scenarioDoc =
      ["Before. ", "![fig](images/fig1.png)", " After."] ∧
    isImageMarkdownTag "![fig](images/fig1.png)" = true ∧
    (∀ text : String, ∀ m ∈ imageSpans text, m ∈ chunkSpans text ∧
      ∀ s ∈ chunkSpans text, s = m ∨ s.2 ≤ m.1 ∨ m.2 ≤ s.1) ∧
    (∀ oracle tl folder p,
      Ev.call p ∈ (translateFaithful oracle tl scenarioDoc folder).events →
      ∃ ctx2 chunk, (chunk = "Before. " ∨ chunk = " After.") ∧
        p = buildPrompt tl ctx2 chunk) ∧
    (translateFaithful alwaysOk "Korean" scenarioDoc "out").translation =
      some "X0![fig](images/fig1.png)X1" := by
  refine ⟨by decide, by decide, ?_, ?_, by decide⟩
  · intro text m hm
    exact matchSpans_atomic text.data (text.data.length + 1) 0 m hm
  · intro oracle tl folder p hp
    obtain ⟨page, chunk, ctx2, hpage, hchunk, htrim, himg, hbuild⟩ :=
      translateFaithful_call_prompts oracle tl scenarioDoc folder p hp
    have hpages : splitByPages scenarioDoc = [scenarioDoc] := by decide
    rw [hpages] at hpage
    have hpe : page = scenarioDoc := List.mem_singleton.mp hpage
    subst hpe
    have hchunks : splitContentByImageMarkdown scenarioDoc =
        ["Before. ", "![fig](images/fig1.png)", " After."] := by decide
    rw [hchunks] at hchunk
    simp only [List.mem_cons, List.not_mem_nil, or_false] at hchunk
    rcases hchunk with h | h | h
    · exact ⟨ctx2, chunk, Or.inl h, hbuild⟩
    · rw [h] at himg
      exact absurd himg (by decide)
    · exact ⟨ctx2, chunk, Or.inr h, hbuild⟩

/-- C4: a stage run that reports failure has an event trace ending at
the failing provider call: no provider call and no checkpoint write
comes after it (so every checkpoint written for the earlier units is
left as it was — there is no rollback write), the returned error is the
failing call's, and the result carries no translation. -/
theorem claim_C4_abort_on_failure (oracle : Nat → ChunkCallResult)
    (tl content folder : String)
    (h : (translateFaithful oracle tl content folder).success = false) :
    ∃ pre prompt,
      (translateFaithful oracle tl content folder).events = pre ++ [Ev.call prompt] ∧
      callFailed (oracle (countCalls pre)) = true ∧
      (translateFaithful oracle tl content folder).error =
        some (errOf (oracle (countCalls pre))) ∧
      (translateFaithful oracle tl content folder).translation = none :=
  translateFaithful_fail_spec oracle tl content folder h

/-- C4 witness: with `failSecond` the three-page document fails at the
second unit, and the abort theorem applies. -/
theorem claim_C4_witness :
    (translateFaithful failSecond "ko" "A<!-- Page 1 -->B<!-- Page 2 -->C"
        "out").success = false ∧
    (∃ pre prompt,
      (translateFaithful failSecond "ko" "A<!-- Page 1 -->B<!-- Page 2 -->C"
          "out").events = pre ++ [Ev.call prompt] ∧
      callFailed (failSecond (countCalls pre)) = true ∧
      (translateFaithful failSecond "ko" "A<!-- Page 1 -->B<!-- Page 2 -->C"
          "out").error = some (errOf (failSecond (countCalls pre))) ∧
      (translateFaithful failSecond "ko" "A<!-- Page 1 -->B<!-- Page 2 -->C"
          "out").translation = none) :=
  ⟨by decide, claim_C4_abort_on_failure failSecond "ko"
    "A<!-- Page 1 -->B<!-- Page 2 -->C" "out" (by decide)⟩

/-- C5 counterexample: in neither cited stage are successive
checkpoints literal extensions of one another.  Translator: for the
two-page document with the always-succeeding oracle, the page-1
checkpoint is prefixed with the progress header (`<!-- ... 1/2 ... -->`)
and the page-2 checkpoint drops it, so the earlier content is not a
prefix of the later.  Blog generator: with two sections, the
section-1 checkpoint ends in the progress note listing section `"B"`
and the section-2 checkpoint drops the note, so again the earlier
content is not a prefix of the later. -/
theorem claim_C5_counterexample :
    (savesOf (translateFaithful alwaysOk "ko" "A<!-- Page 1 -->B" "out").events =
      [Ev.save "out/translated_raw.md" (initialPlaceholder 2),
       Ev.save "out/translated_raw.md"
         ("<!-- Î≤àÏó≠ ÏßÑÌñâ Ï§ë: 1/2 ÌéòÏù¥ÏßÄ ÏôÑÎ£å -->\n\nX0"),
       Ev.save "out/translated_raw.md" "X0\n\nX1",
       Ev.save "out/translated_raw.md" "X0\n\nX1"] ∧
     ¬ ∃ t : String,
      "<!-- Î≤àÏó≠ ÏßÑÌñâ Ï§ë: 1/2 ÌéòÏù¥ÏßÄ ÏôÑÎ£å -->\n\nX0" ++ t =
        "X0\n\nX1") ∧
    blogGenerateSaves "out" "FM" "T" (fun k => "S" ++ toString k) ["A", "B"] =
      [Ev.save "out/blog.md"
         "FM\n\n# T: 논문 해설\n\n_블로그 생성 중... (2개 섹션)_\n\n---\n\n",
       Ev.save "out/blog.md"
         "FM\n\n# T: 논문 해설\n\nS0\n\n---\n\n_생성 중: B 남음..._",
       Ev.save "out/blog.md" "FM\n\n# T: 논문 해설\n\nS0\n\nS1",
       Ev.save "out/blog.md" "FM\n\n# T: 논문 해설\n\nS0\n\nS1"] ∧
    ¬ ∃ t : String,
      "FM\n\n# T: 논문 해설\n\nS0\n\n---\n\n_생성 중: B 남음..._" ++ t =
        "FM\n\n# T: 논문 해설\n\nS0\n\nS1" := by
  refine ⟨⟨by decide, ?_⟩, by decide, ?_⟩
  · rintro ⟨t, ht⟩
    have hlen := congrArg String.length ht
    rw [String.length_append] at hlen
    have h1 : ("<!-- Î≤àÏó≠ ÏßÑÌñâ Ï§ë: 1/2 ÌéòÏù¥ÏßÄ ÏôÑÎ£å -->\n\nX0" :
        String).length = 52 := by decide
    have h2 : ("X0\n\nX1" : String).length = 6 := by decide
    rw [h1, h2] at hlen
    omega
  · rintro ⟨t, ht⟩
    have hlen := congrArg String.length ht
    rw [String.length_append] at hlen
    have h1 : ("FM\n\n# T: 논문 해설\n\nS0\n\n---\n\n_생성 중: B 남음..._" :
        String).length = 40 := by decide
    have h2 : ("FM\n\n# T: 논문 해설\n\nS0\n\nS1" : String).length = 22 := by decide
    rw [h1, h2] at hlen
    omega

/-- C5 (amended), covering both cited stages.  Translator: in a
successful run the checkpoint sequence is the initial placeholder, then
one checkpoint per page consisting of a (possibly empty) progress
header followed by the joined translations of the pages so far, then
the final clean save; the translated BODY of successive checkpoints
grows strictly — each is the previous one extended by a nonempty
suffix.  Blog generator: the `blog.md` writes are the initial
placeholder, then one checkpoint per section consisting of the
frontmatter header, the joined sections so far and a trailing progress
note, then the final clean save; the joined-sections BODY likewise
grows strictly.  In both stages the monotonicity holds of the body, not
of the verbatim file content, because the progress decoration changes
and finally disappears. -/
theorem claim_C5_checkpoint_growth (oracle : Nat → ChunkCallResult)
    (tl content folder : String)
    (h : (translateFaithful oracle tl content folder).success = true) :
    (∃ ts : List String,
      ts.length = (splitByPages content).length ∧
      (translateFaithful oracle tl content folder).translation =
        some (joinSep "\n\n" ts) ∧
      savesOf (translateFaithful oracle tl content folder).events =
        Ev.save (folder ++ "/translated_raw.md") (initialPlaceholder ts.length) ::
        ((List.range ts.length).map fun j =>
          Ev.save (folder ++ "/translated_raw.md")
            (progressHeader j ts.length ++ joinSep "\n\n" (ts.take (j + 1)))) ++
        [Ev.save (folder ++ "/translated_raw.md") (joinSep "\n\n" ts)] ∧
      ∀ j, j + 1 < ts.length → ∃ t : String, t ≠ "" ∧
        joinSep "\n\n" (ts.take (j + 1)) ++ t =
          joinSep "\n\n" (ts.take (j + 2))) ∧
    (∀ (fm btitle folder2 : String) (gen : Nat → String) (order : List String),
      blogGenerateSaves folder2 fm btitle gen order =
        Ev.save (folder2 ++ "/blog.md") (blogInitial fm btitle order) ::
        (((List.range order.length).map fun j =>
          Ev.save (folder2 ++ "/blog.md")
            (blogHeader fm btitle ++
              joinSep "\n\n" (((List.range order.length).map gen).take (j + 1)) ++
              progressNote order j)) ++
         [Ev.save (folder2 ++ "/blog.md")
            (blogHeader fm btitle ++
              joinSep "\n\n" ((List.range order.length).map gen))]) ∧
      ∀ j, j + 1 < order.length → ∃ t : String, t ≠ "" ∧
        joinSep "\n\n" (((List.range order.length).map gen).take (j + 1)) ++ t =
          joinSep "\n\n" (((List.range order.length).map gen).take (j + 2))) := by
  constructor
  · obtain ⟨ts, hlen, htr, hsaves⟩ :=
      translateFaithful_ok_saves oracle tl content folder h
    exact ⟨ts, hlen, htr, hsaves, fun j hj => joinSep_take_grows ts j hj⟩
  · intro fm btitle folder2 gen order
    obtain ⟨h1, h2⟩ := blogSaveLoop_saves (folder2 ++ "/blog.md")
      (blogHeader fm btitle) gen order order.length 0 [] (by omega) (by simp)
    constructor
    · simp only [blogGenerateSaves]
      rw [h1, h2, List.range_eq_range']
    · intro j hj
      exact joinSep_take_grows ((List.range order.length).map gen) j (by simpa using hj)

/-- C5 witness: the checkpoint-growth theorem at the two-page document
with the always-succeeding oracle. -/
theorem claim_C5_witness :
    (translateFaithful alwaysOk "ko" "A<!-- Page 1 -->B" "out").success = true ∧
    ((∃ ts : List String,
      ts.length = (splitByPages "A<!-- Page 1 -->B").length ∧
      (translateFaithful alwaysOk "ko" "A<!-- Page 1 -->B" "out").translation =
        some (joinSep "\n\n" ts) ∧
      savesOf (translateFaithful alwaysOk "ko" "A<!-- Page 1 -->B" "out").events =
        Ev.save ("out" ++ "/translated_raw.md") (initialPlaceholder ts.length) ::
        ((List.range ts.length).map fun j =>
          Ev.save ("out" ++ "/translated_raw.md")
            (progressHeader j ts.length ++ joinSep "\n\n" (ts.take (j + 1)))) ++
        [Ev.save ("out" ++ "/translated_raw.md") (joinSep "\n\n" ts)] ∧
      ∀ j, j + 1 < ts.length → ∃ t : String, t ≠ "" ∧
        joinSep "\n\n" (ts.take (j + 1)) ++ t =
          joinSep "\n\n" (ts.take (j + 2))) ∧
    (∀ (fm btitle folder2 : String) (gen : Nat → String) (order : List String),
      blogGenerateSaves folder2 fm btitle gen order =
        Ev.save (folder2 ++ "/blog.md") (blogInitial fm btitle order) ::
        (((List.range order.length).map fun j =>
          Ev.save (folder2 ++ "/blog.md")
            (blogHeader fm btitle ++
              joinSep "\n\n" (((List.range order.length).map gen).take (j + 1)) ++
              progressNote order j)) ++
         [Ev.save (folder2 ++ "/blog.md")
            (blogHeader fm btitle ++
              joinSep "\n\n" ((List.range order.length).map gen))]) ∧
      ∀ j, j + 1 < order.length → ∃ t : String, t ≠ "" ∧
        joinSep "\n\n" (((List.range order.length).map gen).take (j + 1)) ++ t =
          joinSep "\n\n" (((List.range order.length).map gen).take (j + 2)))) :=
  ⟨by decide, claim_C5_checkpoint_growth alwaysOk "ko" "A<!-- Page 1 -->B" "out"
    (by decide)⟩

/-- C6: after any sequence of `recordUsage` calls, the grand totals
equal the sums over the recorded calls of prompt tokens, completion
tokens, per-call cost and call count, and the per-provider and
per-feature aggregates each sum to those grand totals: no record is
double-counted or dropped.  (This holds at every observation point:
every prefix of a call sequence is itself a call sequence.) -/
theorem claim_C6_ledger_conservation (rs : List RecordParams) :
    (runLedger rs).totalInputTokens =
      (rs.map (fun r => r.usage.promptTokens)).sum ∧
    (runLedger rs).totalOutputTokens =
      (rs.map (fun r => r.usage.completionTokens)).sum ∧
    (runLedger rs).totalCost =
      (rs.map (fun r => (calculateCost r.model r.usage).totalCost)).sum ∧
    (runLedger rs).totalCalls = rs.length ∧
    LedgerInv (runLedger rs) := by
  have hinv : LedgerInv createEmptyStats := by
    refine ⟨?_, ?_, ?_, ?_, ?_, ?_, ?_, ?_⟩ <;>
      simp [createEmptyStats, sumInput, sumOutput, sumCost, sumCalls]
  obtain ⟨t1, t2, t3, t4⟩ := runLedger_totals_aux rs createEmptyStats
  refine ⟨?_, ?_, ?_, ?_, runLedger_inv_aux rs createEmptyStats hinv⟩
  · rw [runLedger, t1]
    simp [createEmptyStats]
  · rw [runLedger, t2]
    simp [createEmptyStats]
  · rw [runLedger, t3]
    simp [createEmptyStats]
  · rw [runLedger, t4]
    simp [createEmptyStats]

/-- C7: each client operation is total toward its caller: on every
failing transport outcome — network error, non-2xx HTTP status, or a
body that is missing or fails to parse as the expected JSON — `post`,
`chatCompletion` and `generateContent` all return a value with
`success = false` and an error message, rather than letting the
exception escape. -/
theorem claim_C7_client_totality (o : TransportOutcome)
    (h : transportFailure o = true) :
    ((post o).success = false ∧ (post o).error ≠ none) ∧
    ((chatCompletion o).success = false ∧ (chatCompletion o).error ≠ none) ∧
    ((generateContent o).success = false ∧ (generateContent o).error ≠ none) :=
  ⟨post_failure o h, chatCompletion_failure o h, generateContent_failure o h⟩

/-- C7 witness: the totality theorem at a concrete network failure. -/
theorem claim_C7_witness :
    transportFailure (TransportOutcome.netError "ECONNREFUSED") = true ∧
    (((post (TransportOutcome.netError "ECONNREFUSED")).success = false ∧
      (post (TransportOutcome.netError "ECONNREFUSED")).error ≠ none) ∧
     ((chatCompletion (TransportOutcome.netError "ECONNREFUSED")).success = false ∧
      (chatCompletion (TransportOutcome.netError "ECONNREFUSED")).error ≠ none) ∧
     ((generateContent (TransportOutcome.netError "ECONNREFUSED")).success = false ∧
      (generateContent (TransportOutcome.netError "ECONNREFUSED")).error ≠ none)) :=
  ⟨by decide, claim_C7_client_totality (TransportOutcome.netError "ECONNREFUSED")
    (by decide)⟩

/-- C8: after triage, no deep-analysis call is issued for an image of
tier 3; the deep-analysis calls are exactly (and in order, one call
each) the triaged images whose tier is not 3, so their number equals
the number of such images; and triage leaves no image untiered
(`if (!img.tier) img.tier = 2`), so "tier is not 3" is well defined for
every loaded image. -/
theorem claim_C8_tier3_skipped (parsed : Option (List TriageItem))
    (images : List ImageAsset) :
    (∀ img ∈ triageImages parsed images, img.tier = some 3 →
      img ∉ deepAnalysisCalls parsed images) ∧
    (deepAnalysisCalls parsed images).length =
      (triageImages parsed images).countP (fun i => !(i.tier == some 3)) ∧
    (∀ img ∈ triageImages parsed images, img.tier ≠ some 3 →
      img ∈ deepAnalysisCalls parsed images) ∧
    (∀ img ∈ triageImages parsed images, img.tier ≠ none) := by
  have hpred : ∀ i : ImageAsset,
      (decide (i.tier ≠ some 3)) = !(i.tier == some 3) := by
    intro i
    by_cases h : i.tier = some 3 <;> simp [h]
  have hfil : (triageImages parsed images).filter
        (fun i => decide (i.tier ≠ some 3)) =
      (triageImages parsed images).filter (fun i => !(i.tier == some 3)) :=
    List.filter_congr (fun x _ => hpred x)
  refine ⟨?_, ?_, ?_, ?_⟩
  · intro img hmem h3 hin
    rw [deepAnalysisCalls] at hin
    have hne := of_decide_eq_true (List.mem_filter.mp hin).2
    exact hne h3
  · rw [deepAnalysisCalls, List.countP_eq_length_filter]
    exact congrArg List.length hfil
  · intro img hmem hne
    rw [deepAnalysisCalls]
    exact List.mem_filter.mpr ⟨hmem, decide_eq_true hne⟩
  · intro img hmem
    simp only [triageImages] at hmem
    obtain ⟨pre, _, rfl⟩ := List.mem_map.mp hmem
    exact defaultTriage_tier_ne pre

/-- C9: for a model absent from `MODEL_PRICING` and nonnegative token
counts, `calculateCost` returns (it is a total function, nothing to
throw) the conservative default `promptTokens/1M * $1.00` and
`completionTokens/1M * $2.00`; the total is nonnegative, and strictly
positive as soon as either token count is. -/
theorem claim_C9_unknown_model_default (model : String) (usage : TokenUsage)
    (hmodel : MODEL_PRICING.lookup model = none)
    (hp : 0 ≤ usage.promptTokens) (hc : 0 ≤ usage.completionTokens) :
    calculateCost model usage =
      { inputCost := usage.promptTokens / 1000000 * 1.0,
        outputCost := usage.completionTokens / 1000000 * 2.0,
        totalCost := usage.promptTokens / 1000000 * 1.0 +
          usage.completionTokens / 1000000 * 2.0 } ∧
    0 ≤ (calculateCost model usage).totalCost ∧
    ((0 < usage.promptTokens ∨ 0 < usage.completionTokens) →
      0 < (calculateCost model usage).totalCost) := by
  have heq : calculateCost model usage =
      { inputCost := usage.promptTokens / 1000000 * 1.0,
        outputCost := usage.completionTokens / 1000000 * 2.0,
        totalCost := usage.promptTokens / 1000000 * 1.0 +
          usage.completionTokens / 1000000 * 2.0 } := by
    simp [calculateCost, hmodel]
  refine ⟨heq, ?_, ?_⟩
  · rw [heq]
    dsimp only
    linarith
  · intro hpos
    rw [heq]
    dsimp only
    rcases hpos with hh | hh <;> linarith

/-- C9 witness: the default-cost theorem at the unknown model
`unknown-model-xyz` with 100 prompt and 200 completion tokens. -/
theorem claim_C9_witness :
    MODEL_PRICING.lookup "unknown-model-xyz" = none ∧
    (0:ℚ) ≤ 100 ∧ (0:ℚ) ≤ 200 ∧
    (calculateCost "unknown-model-xyz" ⟨100, 200, 300⟩ =
      { inputCost := (100:ℚ) / 1000000 * 1.0,
        outputCost := (200:ℚ) / 1000000 * 2.0,
        totalCost := (100:ℚ) / 1000000 * 1.0 + (200:ℚ) / 1000000 * 2.0 } ∧
     0 ≤ (calculateCost "unknown-model-xyz" ⟨100, 200, 300⟩).totalCost ∧
     ((0 < (100:ℚ) ∨ 0 < (200:ℚ)) →
       0 < (calculateCost "unknown-model-xyz" ⟨100, 200, 300⟩).totalCost)) :=
  ⟨by decide, by decide, by decide,
    claim_C9_unknown_model_default "unknown-model-xyz" ⟨100, 200, 300⟩
      (by decide) (by decide) (by decide)⟩

/-- C10 counterexample: `"grok-distill"` contains `"distill"` yet is
routed to `"xAI"`, not `"Groq"` — the `grok-` rule fires first — and
`checkApiKey` demands the xAI key for it even when the Groq key is
configured.  The distill override beats only the `deepseek-` rule. -/
theorem claim_C10_counterexample :
    includesJS "grok-distill" "distill" = true ∧
    getProviderFromModel "grok-distill" = "xAI" ∧
    getProviderFromModel "grok-distill" ≠ "Groq" ∧
    checkApiKey ⟨"", "", "", "", "", "k"⟩ "grok-distill" =
      some "xAI Grok API key not configured. Please set it in plugin settings." := by
  refine ⟨by decide, by decide, by decide, by decide⟩

theorem startsWithJS_deepseek_excl (model : String) {a : Char} {p : List Char}
    (hdd : startsWithJS model "deepseek-" = true) (hne : a ≠ 'd')
    (hpre : (a :: p).isPrefixOf model.data = true) : False :=
  hne (prefix_head_eq hpre
    (show ('d' :: "eepseek-".data).isPrefixOf model.data = true from hdd))

/-- C10 (amended): `getProviderFromModel` is total with range the eight
provider names; a model that starts with `deepseek-` and contains
`distill` is routed to `"Groq"` (the distill exclusion overrides the
`deepseek-` rule — note `deepseek-` excludes the four earlier
rules), and `checkApiKey` accordingly demands the Groq key, not the
DeepSeek key, for it; and a model matching no rule resolves to
`"Unknown"`. -/
theorem claim_C10_distill_routing (model : String) (s : ApiKeys) :
    getProviderFromModel model ∈
      (["xAI", "OpenAI", "Anthropic", "Google", "DeepSeek", "Groq",
        "Mistral", "Unknown"] : List String) ∧
    (startsWithJS model "deepseek-" = true → includesJS model "distill" = true →
      getProviderFromModel model = "Groq" ∧
      (s.groqApiKey.isEmpty = true →
        checkApiKey s model =
          some "Groq API key not configured. Please set it in plugin settings.") ∧
      (s.groqApiKey.isEmpty = false → checkApiKey s model = none)) ∧
    (startsWithJS model "grok-" = false → startsWithJS model "gpt-" = false →
      startsWithJS model "claude-" = false →
      startsWithJS model "gemini-" = false →
      startsWithJS model "deepseek-" = false →
      startsWithJS model "llama-" = false →
      includesJS model "distill" = false →
      startsWithJS model "mistral-" = false →
      getProviderFromModel model = "Unknown") := by
  refine ⟨?_, ?_, ?_⟩
  · simp only [getProviderFromModel]
    repeat' split
    all_goals simp
  · intro hdd hdist
    have hg : startsWithJS model "grok-" = false := by
      by_contra hco
      rw [Bool.not_eq_false] at hco
      exact startsWithJS_deepseek_excl model hdd (by decide)
        (show ('g' :: "rok-".data).isPrefixOf model.data = true from hco)
    have hgpt : startsWithJS model "gpt-" = false := by
      by_contra hco
      rw [Bool.not_eq_false] at hco
      exact startsWithJS_deepseek_excl model hdd (by decide)
        (show ('g' :: "pt-".data).isPrefixOf model.data = true from hco)
    have hcl : startsWithJS model "claude-" = false := by
      by_contra hco
      rw [Bool.not_eq_false] at hco
      exact startsWithJS_deepseek_excl model hdd (by decide)
        (show ('c' :: "laude-".data).isPrefixOf model.data = true from hco)
    have hge : startsWithJS model "gemini-" = false := by
      by_contra hco
      rw [Bool.not_eq_false] at hco
      exact startsWithJS_deepseek_excl model hdd (by decide)
        (show ('g' :: "emini-".data).isPrefixOf model.data = true from hco)
    refine ⟨?_, ?_, ?_⟩
    · simp [getProviderFromModel, hg, hgpt, hcl, hge, hdd, hdist]
    · intro hkey
      simp [checkApiKey, hg, hgpt, hcl, hge, hdd, hdist, hkey]
    · intro hkey
      simp [checkApiKey, hg, hgpt, hcl, hge, hdd, hdist, hkey]
  · intro h1 h2 h3 h4 h5 h6 h7 h8
    simp [getProviderFromModel, h1, h2, h3, h4, h5, h6, h7, h8]

end PaperProcessor.Claims
